import Mathlib

/-!
Shallow embedding of the workflow-orchestration core of the
research-collaborative repository: the retry/recovery manager
(src/workflow/recovery.py), the dynamic router (src/workflow/router.py),
the communication bus (src/workflow/communication.py), the TTL/LRU cache
(src/utils/cache_manager.py) and the engine entry point
(src/workflow/graph.py).

The Python state dict threaded through the pipeline is modelled as a
structure holding every key those modules read or write; an absent key is
modelled by the default used at its read sites (`Option` where membership
is tested, the `.get` default otherwise).  Wall-clock readings are passed
in explicitly as rationals.  Logging, `time.sleep` and the randomised
backoff jitter have no effect on state and are elided.  A raised Python
exception is modelled as `Except.error` carrying the exception message.
-/

namespace ResearchCollab

/-- Occurrence test for a character pattern inside a character list. -/
def listContainsSub (hay pat : List Char) : Bool :=
  match hay with
  | [] => pat.isEmpty
  | _ :: t => pat.isPrefixOf hay || listContainsSub t pat

/-- Python substring test `pat in s`. -/
def strContains (s pat : String) : Bool :=
  listContainsSub s.data pat.data

/-- Python `str.lower()` (all strings involved are ASCII). -/
def strToLower (s : String) : String :=
  String.mk (s.data.map Char.toLower)

/-- Worker for `pySplit`: `acc` holds the current word, reversed. -/
def pySplitAux : List Char → List Char → List String
  | [], acc => if acc = [] then [] else [String.mk acc.reverse]
  | c :: t, acc =>
    if c.isWhitespace then
      if acc = [] then pySplitAux t []
      else String.mk acc.reverse :: pySplitAux t []
    else pySplitAux t (c :: acc)

/-- Python `str.split()` with no argument: split on runs of whitespace and
drop empty pieces. -/
def pySplit (s : String) : List String :=
  pySplitAux s.data []

/-- Lookup in an insertion-ordered Python dict modelled as an association
list (first binding wins). -/
def dictGet {α : Type} : List (String × α) → String → Option α
  | [], _ => none
  | (k1, v) :: t, k => if k1 = k then some v else dictGet t k

/-- Python `d[k] = v`: replace the existing binding in place, else append. -/
def dictSet {α : Type} : List (String × α) → String → α → List (String × α)
  | [], k, v => [(k, v)]
  | (k1, v1) :: t, k, v => if k1 = k then (k, v) :: t else (k1, v1) :: dictSet t k v

/-- Python `del d[k]` (no-op when the key is absent, matching the guarded
deletes in the source). -/
def dictDel {α : Type} : List (String × α) → String → List (String × α)
  | [], _ => []
  | (k1, v1) :: t, k => if k1 = k then t else (k1, v1) :: dictDel t k

/-- The keys of an association-list dict. -/
def dictKeys {α : Type} (l : List (String × α)) : List String :=
  l.map Prod.fst

/-- An academic paper record: the fields produced by the literature search
and by the recovery fallback. -/
structure Paper where
  title : String
  authors : List String
  abstract : String
  url : String
  source : String
deriving Repr, DecidableEq

/-- One entry of `state['research_gaps']`. -/
structure ResearchGap where
  description : String
  impact : String
deriving Repr, DecidableEq

/-- One entry of `state['hypotheses']`; optional fields cover the different
key sets used by the recovery and graph fallbacks. -/
structure Hypothesis where
  statement : String
  rationale : String
  priority : Option String := none
  source : Option String := none
  testability : Option String := none
deriving Repr, DecidableEq

/-- `state['quantitative_insights']` as produced by the data-analysis
recovery strategy. -/
structure QuantInsights where
  paper_count : Nat
  estimated_authors : Nat
  analysis_mode : String
deriving Repr, DecidableEq

/-- One entry of `state['quality_assessments']`.  The router and the
communication bus read and write different key sets, so every field is
optional: a missing dict key is `none`. -/
structure QualityAssessment where
  score : Option ℚ := none
  agent : Option String := none
  checker : Option String := none
  content_type : Option String := none
  quality_score : Option ℚ := none
  passed : Option Bool := none
deriving Repr, DecidableEq

/-- One entry of `state['escalations']` as appended by the communication
bus. -/
structure Escalation where
  sender : String
  reason : String
  complexity : String
  timestamp : Option ℚ := none
deriving Repr, DecidableEq

/-- One entry of `state['assistance_requests']`. -/
structure AssistanceRequest where
  request_type : String
  processed : Bool := false
deriving Repr, DecidableEq

/-- The pipeline state dict: every key read or written by the embedded
modules, with the dict-absence default used at its read sites. -/
structure WFState where
  query : String := ""
  current_step : String := ""
  completed_steps : List String := []
  errors : List String := []
  papers_found : List Paper := []
  retry_counts : List (String × Nat) := []
  analysis_summary : Option String := none
  key_themes : Option (List String) := none
  research_gaps : Option (List ResearchGap) := none
  contradictions : Option (List String) := none
  hypotheses : Option (List Hypothesis) := none
  quantitative_insights : Option QuantInsights := none
  data_analysis_summary : Option String := none
  recovery_applied : Bool := false
  recovery_type : Option String := none
  recovery_message : Option String := none
  executive_summary : Option String := none
  publication_report : Option String := none
  detailed_research_plan : Option String := none
  literature_retry_attempted : Bool := false
  gap_enhancement_attempted : Bool := false
  quality_retry_attempted : Bool := false
  publication_retry_attempted : Bool := false
  needs_additional_papers : Bool := false
  needs_deeper_analysis : Bool := false
  needs_statistical_summary : Bool := false
  additional_papers_processing : Bool := false
  deeper_analysis_processing : Bool := false
  statistical_summary_processing : Bool := false
  analysis_focus_areas : Option (List String) := none
  requires_manual_review : Bool := false
  requires_human_review : Bool := false
  escalations : List Escalation := []
  assistance_requests : List AssistanceRequest := []
  quality_assessments : List QualityAssessment := []
  workflow_start_time : Option ℚ := none
  final_quality_check_done : Bool := false
  workflow_completed : Bool := false
  analysis_completed : Bool := false
  total_execution_time : Option ℚ := none
  performance_report : Option String := none
deriving Repr, DecidableEq

/-- The empty state dict. -/
def emptyWF : WFState := {}

namespace CommunicationBus

/-- `CommunicationBus._calculate_quality_score` (communication.py). -/
def calculate_quality_score (content : String) (check_type : String) : ℚ :=
  if content = "" then 0
  else
    let length_score : ℚ := min ((content.length : ℚ) / 500) 1
    if check_type = "hypothesis" then
      let kws := ["measure", "compare", "evaluate", "test", "validate"]
      let keyword_score : ℚ :=
        ((kws.filter (fun kw => strContains (strToLower content) kw)).length : ℚ) / (kws.length : ℚ)
      (length_score + keyword_score) / 2
    else if check_type = "analysis" then
      let kws := ["gap", "trend", "pattern", "relationship", "finding"]
      let keyword_score : ℚ :=
        ((kws.filter (fun kw => strContains (strToLower content) kw)).length : ℚ) / (kws.length : ℚ)
      (length_score + keyword_score) / 2
    else length_score

/-- The assessment dict appended by `CommunicationBus._handle_quality_check`
for a message with the given recipient and content fields: it records the
score under `quality_score` and the checking agent under `checker`. -/
def qualityEntry (recipient check_type content : String) : QualityAssessment :=
  let q := calculate_quality_score content check_type
  { checker := some recipient, content_type := some check_type,
    quality_score := some q, passed := some (decide (q ≥ mkRat 7 10)) }

/-- `CommunicationBus._handle_quality_check`: appends the assessment to the
state. -/
def handle_quality_check (recipient check_type content : String) (s : WFState) : WFState :=
  { s with quality_assessments :=
      s.quality_assessments ++ [qualityEntry recipient check_type content] }

end CommunicationBus

namespace RetryManager

/-- `RetryManager.__init__`: `self.max_retries = 3`. -/
def max_retries : Nat := 3

/-- The `for word in common_words` loop of
`RetryManager._extract_themes_simple`, with its early break once five
themes are collected. -/
def addCommonWords (title_words : List String) : List String → List String → List String
  | [], themes => themes
  | w :: ws, themes =>
    if w ∈ title_words ∧ w ∉ themes then
      let themes1 := themes ++ [w]
      if themes1.length ≥ 5 then themes1 else addCommonWords title_words ws themes1
    else addCommonWords title_words ws themes

/-- `RetryManager._extract_themes_simple`. -/
def extract_themes_simple (query : String) (papers : List Paper) : List String :=
  let query_words := pySplit (strToLower query)
  let important_words := query_words.filter (fun w => w.length > 4)
  let themes := important_words.take 3
  let themes :=
    if papers ≠ [] then
      let all_titles := String.intercalate " " (papers.map Paper.title)
      let title_words := pySplit (strToLower all_titles)
      addCommonWords title_words
        ["learning", "analysis", "model", "data", "system", "method"] themes
    else themes
  let themes := if themes = [] then ["research", "analysis", "methodology"] else themes
  themes.take 5

/-- `RetryManager._recover_literature_search`: fabricates the single
fallback paper. -/
def recover_literature_search (s : WFState) (_err : String) : WFState :=
  { s with
    papers_found :=
      [{ title := "Fallback Research Paper on Topic",
         authors := ["Recovery Author"],
         abstract := "This is a fallback paper for the query: " ++ s.query,
         url := "http://example.com/fallback",
         source := "recovery_system" }],
    recovery_applied := true,
    recovery_type := some "literature_fallback" }

/-- `RetryManager._recover_analysis`. -/
def recover_analysis (s : WFState) (_err : String) : WFState :=
  let themes := extract_themes_simple s.query s.papers_found
  let gaps : List ResearchGap :=
    [{ description := "Limited research on practical applications of " ++ s.query,
       impact := "High" },
     { description := "Need for more comprehensive evaluation methods",
       impact := "Medium" }]
  { s with
    key_themes := some themes,
    research_gaps := some gaps,
    contradictions := some ["Recovery mode - detailed contradiction analysis unavailable"],
    analysis_summary :=
      some ("Recovery analysis completed for " ++ toString s.papers_found.length ++ " papers"),
    recovery_applied := true,
    recovery_type := some "analysis_fallback" }

/-- `RetryManager._recover_data_analysis`. -/
def recover_data_analysis (s : WFState) (_err : String) : WFState :=
  { s with
    quantitative_insights :=
      some { paper_count := s.papers_found.length,
             estimated_authors := s.papers_found.length * 3,
             analysis_mode := "recovery" },
    data_analysis_summary :=
      some ("Recovery data analysis: " ++ toString s.papers_found.length ++ " papers processed"),
    recovery_applied := true,
    recovery_type := some "data_analysis_fallback" }

/-- `RetryManager._recover_hypothesis_generation`. -/
def recover_hypothesis_generation (s : WFState) (_err : String) : WFState :=
  let themes := s.key_themes.getD []
  let first_theme := match themes with | t :: _ => t | [] => "the field"
  { s with
    hypotheses :=
      some [{ statement := "Advances in " ++ first_theme ++ " will improve " ++ s.query,
              rationale := "Based on current research trends",
              priority := some "High", source := some "recovery_system" },
            { statement := "Integration of multiple approaches in " ++ s.query ++
                " shows promising results",
              rationale := "Cross-disciplinary potential identified",
              priority := some "Medium", source := some "recovery_system" }],
    recovery_applied := true,
    recovery_type := some "hypothesis_fallback" }

/-- `RetryManager._recover_publication`. -/
def recover_publication (s : WFState) (_err : String) : WFState :=
  let papers_count := s.papers_found.length
  let basic_summary :=
    "# Recovery Research Summary: " ++ s.query ++
    "\n\n## Overview\nEmergency analysis completed for " ++ toString papers_count ++
    " papers.\n\n## Status\n- Literature collection: " ++
    (if papers_count > 0 then "✅" else "❌") ++
    "\n- Analysis: " ++ (if s.key_themes.isSome then "✅" else "❌") ++
    "  \n- Hypothesis generation: " ++ (if s.hypotheses.isSome then "✅" else "❌") ++
    "\n\n## Next Steps\n- Manual review recommended" ++
    "\n- Consider re-running analysis with adjusted parameters\n"
  { s with
    executive_summary := some basic_summary,
    publication_report := some basic_summary,
    recovery_applied := true,
    recovery_type := some "publication_fallback" }

/-- `RetryManager._generic_recovery`. -/
def generic_recovery (s : WFState) (err : String) : WFState :=
  { s with
    recovery_applied := true,
    recovery_type := some "generic",
    recovery_message := some ("Recovery applied due to error: " ++ String.mk (err.data.take 100)) }

/-- `RetryManager._apply_recovery_strategy`: dispatch on the failed step's
name, defaulting to the generic strategy. -/
def apply_recovery_strategy (s : WFState) (failed_step : String) (err : String) : WFState :=
  if failed_step = "literature_search" then recover_literature_search s err
  else if failed_step = "analysis" then recover_analysis s err
  else if failed_step = "data_analysis" then recover_data_analysis s err
  else if failed_step = "hypothesis_generation" then recover_hypothesis_generation s err
  else if failed_step = "publication" then recover_publication s err
  else generic_recovery s err

/-- A stage function: the updated state on success, or the raised
exception's message. -/
abbrev StageFn := WFState → Except String WFState

/-- The `while retry_count < self.max_retries` loop of
`RetryManager.execute_with_retry`.  The returned `Nat` counts how many
times the stage function was invoked.  `fuel` only bounds the structural
recursion; since `retry_count` rises by one per iteration, the call site's
`fuel = max_retries` is never exhausted before the guard fails.  On success
the source deletes the step's retry counter from its local `state` dict
and returns the stage function's result unchanged; the backoff sleep
between attempts has no effect on state; a recovery reached with no failed
attempt stringifies the initial `last_error = None`. -/
def retryLoop (func : StageFn) (step_name : String) :
    Nat → WFState → Nat → Option String → Nat → WFState × Nat
  | 0, state, _retry_count, last_error, attempts =>
    (apply_recovery_strategy state step_name (last_error.getD "None"), attempts)
  | fuel + 1, state, retry_count, last_error, attempts =>
    if retry_count < max_retries then
      match func state with
      | .ok result => (result, attempts + 1)
      | .error e =>
        let rc := retry_count + 1
        let st := { state with retry_counts := dictSet state.retry_counts step_name rc }
        retryLoop func step_name fuel st rc (some e) (attempts + 1)
    else
      (apply_recovery_strategy state step_name (last_error.getD "None"), attempts)

/-- `RetryManager.execute_with_retry` together with the number of attempts
performed.  The initial counter is the step's existing entry in
`retry_counts` (0 when absent, after the source ensures the dict exists). -/
def execute_with_retry (func : StageFn) (state : WFState) (step_name : String) :
    WFState × Nat :=
  let retry_count := (dictGet state.retry_counts step_name).getD 0
  retryLoop func step_name (max_retries + 1) state retry_count none 0

end RetryManager

/-! ## Router (src/workflow/router.py) -/

/-- The route chosen for an unprocessed assistance request of the given
type in `check_communication_routing`. -/
def requestRoute (t : String) : Option String :=
  if t = "more_papers" then some "literature_search"
  else if t = "deeper_analysis" then some "analysis"
  else if t = "statistical_summary" then some "data_analysis"
  else none

/-- The `for request in recent_requests[-3:]` loop: the first request whose
type has a route, with its index into `assistance_requests`. -/
def findAssistRoute : List (Nat × AssistanceRequest) → Option (Nat × AssistanceRequest × String)
  | [] => none
  | (i, r) :: t =>
    match requestRoute r.request_type with
    | some route => some (i, r, route)
    | none => findAssistRoute t

/-- The assistance-request section of `check_communication_routing`: scans
the last three unprocessed requests, marks the first routable one as
processed (in place, via its index) and returns its route. -/
def commAssistance (s : WFState) : String × WFState :=
  let recent := s.assistance_requests.enum.filter (fun p => ¬ p.2.processed)
  let last_three := recent.drop (recent.length - 3)
  match findAssistRoute last_three with
  | some (i, r, route) =>
    (route, { s with assistance_requests :=
        s.assistance_requests.set i { r with processed := true } })
  | none => ("continue", s)

/-- The escalation section of `check_communication_routing`: a
high-complexity escalation sets the manual-review flag and, when its reason
names literature/papers or analysis, routes there; otherwise control falls
through to the assistance-request section. -/
def commEscalations (s : WFState) : String × WFState :=
  let high := s.escalations.filter (fun e => e.complexity = "high")
  if s.escalations ≠ [] ∧ high ≠ [] then
    let s1 := { s with requires_manual_review := true }
    match high.getLast? with
    | some recent =>
      let reason := strToLower recent.reason
      if strContains reason "literature" ∨ strContains reason "papers" then
        ("literature_search", s1)
      else if strContains reason "analysis" then ("analysis", s1)
      else commAssistance s1
    | none => commAssistance s1
  else commAssistance s

/-- `check_communication_routing`: the override route (or "continue")
together with the mutated state.  The flag-clearing loop of the source
iterates over `processed_flags_to_clear`, which is necessarily empty on the
fall-through path (flags are only queued on branches that return
immediately), so it never mutates the state and is elided. -/
def check_communication_routing (s : WFState) : String × WFState :=
  if s.needs_additional_papers ∧ ¬ s.additional_papers_processing then
    ("literature_search", { s with additional_papers_processing := true })
  else if s.needs_deeper_analysis ∧ ¬ s.deeper_analysis_processing then
    ("analysis", { s with deeper_analysis_processing := true })
  else if s.needs_statistical_summary ∧ ¬ s.statistical_summary_processing then
    ("data_analysis", { s with statistical_summary_processing := true })
  else commEscalations s

/-- Branch 8 of `route_next_step` (publication-retry) and the default
terminal route.  `completed_steps` is the local list read at the top of
`route_next_step`; the source also computes an unused `has_research_plan`
local. -/
def routePublicationRetry (completed_steps : List String) (s : WFState) : String × WFState :=
  if "publication_assistant" ∈ completed_steps then
    if ¬ (s.executive_summary.getD "" ≠ "") ∧ ¬ s.publication_retry_attempted then
      ("publication",
        { s with publication_retry_attempted := true,
                 completed_steps := completed_steps.erase "publication_assistant" })
    else ("end", s)
  else ("end", s)

/-- Branch 7 of `route_next_step` (quality-retry), falling through to
branch 8.  A low-quality assessment is one whose `score` key (default 1.0)
is below 0.6; the failed step is read from its `agent` key. -/
def routeQuality (completed_steps : List String) (s : WFState) : String × WFState :=
  let low_quality := s.quality_assessments.filter (fun qa => qa.score.getD 1 < mkRat 3 5)
  if s.quality_assessments ≠ [] ∧ low_quality ≠ [] ∧ ¬ s.quality_retry_attempted then
    match low_quality with
    | qa :: _ =>
      let failed_step := qa.agent.getD "unknown"
      let s1 := { s with quality_retry_attempted := true }
      if strContains (strToLower failed_step) "analysis" ∧ "analysis_agent" ∈ completed_steps then
        ("analysis", { s1 with needs_deeper_analysis := true })
      else if strContains (strToLower failed_step) "data" ∧ "data_analyzer" ∈ completed_steps then
        ("data_analysis", s1)
      else routePublicationRetry completed_steps s1
    | [] => routePublicationRetry completed_steps s
  else routePublicationRetry completed_steps s

/-- The sequential portion of `route_next_step` (after the communication
check): error ceiling, the canonical stage chain with its data gates, the
literature-retry and gap-enhancement re-entries, then the quality and
publication branches. -/
def routeMain (completed_steps : List String) (errors : List String)
    (papers_found : List Paper) (s : WFState) : String × WFState :=
  if errors.length > 5 then ("end", s)
    else if "literature_scanner" ∈ completed_steps ∧ "analysis_agent" ∉ completed_steps then
      if papers_found.length = 0 then ("end", s) else ("analysis", s)
    else if "analysis_agent" ∈ completed_steps ∧ "data_analyzer" ∉ completed_steps then
      ("data_analysis", s)
    else if "data_analyzer" ∈ completed_steps ∧
        ¬ ("hypothesis_generator" ∈ completed_steps ∨ "synthesis_agent" ∈ completed_steps) then
      ("hypothesis_generation", s)
    else if ("hypothesis_generator" ∈ completed_steps ∨ "synthesis_agent" ∈ completed_steps) ∧
        "publication_assistant" ∉ completed_steps then
      ("publication", s)
    else if papers_found.length < 3 ∧ "literature_retry" ∉ completed_steps ∧
        completed_steps.length < 2 ∧ ¬ s.literature_retry_attempted then
      ("literature_search", { s with literature_retry_attempted := true })
    else if (s.research_gaps.getD []).length < 2 ∧ "gap_enhancement" ∉ completed_steps ∧
        "analysis_agent" ∈ completed_steps ∧ ¬ s.gap_enhancement_attempted then
      ("analysis", { s with needs_deeper_analysis := true,
                            analysis_focus_areas :=
                              some ["research_gaps", "methodological_limitations"],
                            gap_enhancement_attempted := true })
    else routeQuality completed_steps s

/-- `route_next_step`: the routing decision together with the mutated
state.  The locals `completed_steps`, `errors` and `papers_found` are read
from the incoming state before the communication check, exactly as in the
source. -/
def route_next_step (s0 : WFState) : String × WFState :=
  let comm := check_communication_routing s0
  if comm.1 ≠ "continue" then comm
  else routeMain s0.completed_steps s0.errors s0.papers_found comm.2

/-- The canonical core stages checked by `should_continue` and reported by
the engine. -/
def coreStageIds : List String :=
  ["literature_scanner", "analysis_agent", "data_analyzer",
   "hypothesis_generator", "publication_assistant"]

/-- `should_continue` at wall-clock time `now`, together with the mutated
state (the final-quality-check flag can be set). -/
def should_continue (now : ℚ) (s : WFState) : Bool × WFState :=
  if s.errors.length > 5 then (false, s)
  else
    let timed_out :=
      match s.workflow_start_time with
      | some t => decide (t ≠ 0) && decide (now - t > 1800)
      | none => false
    if timed_out then (false, s)
    else
      let completed_core := s.completed_steps.filter (fun st => st ∈ coreStageIds)
      if completed_core.length ≥ coreStageIds.length then
        let has_papers := s.papers_found.length > 0
        let has_analysis := (s.analysis_summary.getD "") ≠ ""
        let has_hypotheses := (s.hypotheses.getD []).length > 0
        if has_papers ∧ has_analysis ∧ has_hypotheses then (false, s)
        else if ¬ s.final_quality_check_done then
          (true, { s with final_quality_check_done := true })
        else (decide (completed_core.length < coreStageIds.length), s)
      else (decide (completed_core.length < coreStageIds.length), s)

/-! ## The claimed engine step relation

The termination claim is about iterating: `route_next_step` selects a
stage and that stage's execution appends its identifier to
`completed_steps`.  The graph node functions (graph.py) append their
identifier only when it is not already present. -/

/-- The stage identifier appended by the node function each route
dispatches to (graph.py). -/
def stageIdOf (route : String) : Option String :=
  if route = "literature_search" then some "literature_scanner"
  else if route = "analysis" then some "analysis_agent"
  else if route = "data_analysis" then some "data_analyzer"
  else if route = "hypothesis_generation" then some "hypothesis_generator"
  else if route = "publication" then some "publication_assistant"
  else none

/-- Executing a routed stage: append its identifier to `completed_steps`
when absent, as every node function in graph.py does. -/
def execStage (route : String) (s : WFState) : WFState :=
  match stageIdOf route with
  | some id =>
    if id ∈ s.completed_steps then s
    else { s with completed_steps := s.completed_steps ++ [id] }
  | none => s

/-- One iteration of the engine loop: route, then execute the chosen stage
(no-op on the terminal route). -/
def stepOnce (s : WFState) : WFState :=
  let r := route_next_step s
  if r.1 = "end" then r.2 else execStage r.1 r.2

/-- Cost 1 for a routing marker that is still unset. -/
def flagCost (b : Bool) : Nat := if b then 0 else 1

/-- Number of once-per-run re-entry markers not yet set: the four
`*_attempted` markers and the three communication `*_processing` markers. -/
def markerCount (s : WFState) : Nat :=
  flagCost s.literature_retry_attempted + flagCost s.gap_enhancement_attempted +
  flagCost s.quality_retry_attempted + flagCost s.publication_retry_attempted +
  flagCost s.additional_papers_processing + flagCost s.deeper_analysis_processing +
  flagCost s.statistical_summary_processing

/-- Cost 1 for a core stage identifier not yet in `completed_steps`. -/
def memCost (id : String) (c : List String) : Nat := if id ∈ c then 0 else 1

/-- Number of core stages not yet completed. -/
def stagesLeft (s : WFState) : Nat :=
  memCost "literature_scanner" s.completed_steps +
  memCost "analysis_agent" s.completed_steps +
  memCost "data_analyzer" s.completed_steps +
  memCost "hypothesis_generator" s.completed_steps +
  memCost "publication_assistant" s.completed_steps

/-- Termination measure for the engine loop: unset markers plus
uncompleted stages (at most 7 + 5 = 12). -/
def routeMeasure (s : WFState) : Nat := markerCount s + stagesLeft s

/-- An escalation that cannot trigger the marker-free escalation routing:
if it is high-complexity, its reason names none of the routing keywords. -/
def escReasonInert (e : Escalation) : Prop :=
  e.complexity = "high" →
    strContains (strToLower e.reason) "literature" = false ∧
    strContains (strToLower e.reason) "papers" = false ∧
    strContains (strToLower e.reason) "analysis" = false

/-- States excluded by the amended termination claim: no high-complexity
escalation with a routable reason, and no unprocessed assistance request
(both paths route without setting a once-per-run marker). -/
def RouterInv (s : WFState) : Prop :=
  (∀ e ∈ s.escalations, escReasonInert e) ∧
  (∀ r ∈ s.assistance_requests, r.processed = true)

/-! ## Cache store (src/utils/cache_manager.py)

Timestamps (`datetime.now()`, stored ISO-formatted and compared; ISO order
is chronological) are modelled as integer seconds passed in explicitly;
TTLs are seconds.  A pickled payload is modelled as a string whose length
is the file size reported by `stat()`. -/

namespace CacheManager

/-- One value of `metadata["entries"]`. -/
structure CEntry where
  created : Int
  size : Int
  ttl_seconds : Int
  access_count : Nat
  last_accessed : Int
deriving Repr, DecidableEq

/-- The cache directory plus its metadata index. -/
structure CacheState where
  files : List (String × String)
  entries : List (String × CEntry)
  total_size : Int
  max_size_bytes : Int
  default_ttl : Int
deriving Repr, DecidableEq

/-- `CacheManager.__init__` with `max_size_mb` megabytes over an empty
directory (a missing metadata index is an empty cache). -/
def init (max_size_mb : Int) : CacheState :=
  { files := [], entries := [], total_size := 0,
    max_size_bytes := max_size_mb * 1024 * 1024,
    default_ttl := 24 * 3600 }

/-- Sum of the recorded sizes of the live metadata entries. -/
def sumSizes (entries : List (String × CEntry)) : Int :=
  (entries.map (fun e => e.2.size)).sum

/-- `CacheManager._delete_entry`: unlink the file, then subtract the
entry's recorded size and drop it from the metadata when present. -/
def delete_entry (key : String) (cs : CacheState) : CacheState :=
  let files := dictDel cs.files key
  match dictGet cs.entries key with
  | some e =>
    { cs with files := files, entries := dictDel cs.entries key,
              total_size := cs.total_size - e.size }
  | none => { cs with files := files }

/-- The eviction loop of `_cleanup_if_needed`: walk the snapshot of entry
keys in ascending last-accessed order, deleting until usage is back at or
under the 80% buffer. -/
def evictLoop : List String → CacheState → CacheState
  | [], cs => cs
  | k :: ks, cs =>
    -- `total_size <= max_size_bytes * 0.8`, stated integrally
    if 5 * cs.total_size ≤ 4 * cs.max_size_bytes then cs
    else evictLoop ks (delete_entry k cs)

/-- `CacheManager._cleanup_if_needed`: no-op while total size is within the
byte budget, else evict in ascending `last_accessed` order (claims placing
equal timestamps do not depend on how the sort breaks ties). -/
def cleanup_if_needed (cs : CacheState) : CacheState :=
  if cs.total_size ≤ cs.max_size_bytes then cs
  else
    let sorted := List.insertionSort
      (fun a b => a.2.last_accessed ≤ b.2.last_accessed) cs.entries
    evictLoop (sorted.map Prod.fst) cs

/-- `CacheManager.get` at wall-clock time `now`: miss when the file is
absent; an entry older than its TTL is deleted lazily and reported as a
miss; otherwise the pickled payload is returned.  Reading does not touch
`last_accessed` or `access_count`. -/
def get (now : Int) (cache_key : String) (cs : CacheState) : Option String × CacheState :=
  match dictGet cs.files cache_key with
  | none => (none, cs)
  | some data =>
    match dictGet cs.entries cache_key with
    | some e =>
      if now - e.created > e.ttl_seconds then (none, delete_entry cache_key cs)
      else (some data, cs)
    | none => (some data, cs)

/-- `CacheManager.set` at wall-clock time `now`: capacity check first, then
write the file, record fresh metadata for the key and add the new file's
size to `total_size` (the I/O-failure path degrades to a no-op and is not
taken in this pure model). -/
def set (now : Int) (cache_key : String) (data : String) (ttl : Option Int)
    (cs : CacheState) : Bool × CacheState :=
  let cs1 := cleanup_if_needed cs
  let files := dictSet cs1.files cache_key data
  let file_size : Int := data.length
  let entries := dictSet cs1.entries cache_key
    { created := now, size := file_size, ttl_seconds := ttl.getD cs1.default_ttl,
      access_count := 1, last_accessed := now }
  (true, { cs1 with files := files, entries := entries,
                    total_size := cs1.total_size + file_size })

/-- `CacheManager.clear_expired`: delete every entry older than its TTL. -/
def clear_expired (now : Int) (cs : CacheState) : CacheState :=
  let expired_keys :=
    (cs.entries.filter (fun e => now - e.2.created > e.2.ttl_seconds)).map Prod.fst
  expired_keys.foldl (fun c k => delete_entry k c) cs

/-- `CacheManager.get_stats`. -/
structure CacheStats where
  total_entries : Nat
  total_size_mb : ℚ
  hit_rate : ℚ
  oldest_entry : Option Int
  cache_utilization : ℚ
deriving Repr, DecidableEq

def get_stats (cs : CacheState) : CacheStats :=
  let total_accesses := (cs.entries.map (fun e => e.2.access_count)).sum
  { total_entries := cs.entries.length,
    total_size_mb := (cs.total_size : ℚ) / (1024 * 1024),
    hit_rate := (cs.entries.length : ℚ) / (max total_accesses 1 : ℚ),
    oldest_entry := (cs.entries.map (fun e => e.2.created)).min?,
    cache_utilization := (cs.total_size : ℚ) / (cs.max_size_bytes : ℚ) }

/-- The metadata index is consistent: no duplicate keys, and `total_size`
is the sum of the recorded entry sizes. -/
def CacheWF (cs : CacheState) : Prop :=
  (dictKeys cs.files).Nodup ∧ (dictKeys cs.entries).Nodup ∧
  cs.total_size = sumSizes cs.entries

end CacheManager

/-! ## Engine entry point (src/workflow/graph.py) -/

/-- Fixed-point decimal rendering used for the numeric fields of the
performance report (the embedding of Python float formatting). -/
def fmtFixed (q : ℚ) (digits : Nat) : String :=
  let scale : Int := (10 : Int) ^ digits
  let scaled : Int := round (q * (scale : ℚ))
  let sign := if scaled < 0 then "-" else ""
  let a := scaled.natAbs
  let ip := a / scale.natAbs
  let fp := a % scale.natAbs
  let fpStr := toString fp
  let pad := String.mk (List.replicate (digits - fpStr.length) (Char.ofNat 48))
  if digits = 0 then sign ++ toString ip
  else sign ++ toString ip ++ "." ++ pad ++ fpStr

/-- The display names used for completed steps in the performance report;
an unknown id goes through `replace('_', ' ').title()`. -/
def titleWord (w : String) : String :=
  match w.toList with
  | c :: rest => String.mk (c.toUpper :: rest.map Char.toLower)
  | [] => ""

def step_display_name (step : String) : String :=
  if step = "literature_scanner" then "Literature Search"
  else if step = "analysis_agent" then "Analysis"
  else if step = "data_analyzer" then "Data Processing"
  else if step = "hypothesis_generator" then "Hypothesis Generation"
  else if step = "publication_assistant" then "Publication"
  else String.intercalate " " (((step.replace "_" " ").splitOn " ").map titleWord)

/-- `EnhancedResearchWorkflow._generate_performance_report`, reading the
process-wide cache's statistics. -/
def generate_performance_report (s : WFState) (cache : CacheManager.CacheState) : String :=
  let stats := CacheManager.get_stats cache
  let execution_time := s.total_execution_time.getD 0
  let completion_rate : ℚ := (s.completed_steps.length : ℚ) / 5 * 100
  let header :=
    ["# 📊 Workflow Performance Report",
     "**Execution Time**: " ++ fmtFixed execution_time 2 ++ " seconds (" ++
       fmtFixed (execution_time / 60) 1 ++ " minutes)",
     "**Completion Rate**: " ++ fmtFixed completion_rate 1 ++ "% (" ++
       toString s.completed_steps.length ++ "/5 steps)",
     "**Papers Found**: " ++ toString s.papers_found.length,
     "**Errors**: " ++ toString s.errors.length,
     "",
     "## Cache Performance",
     "- Entries: " ++ toString stats.total_entries,
     "- Size: " ++ fmtFixed stats.total_size_mb 2 ++ " MB",
     "",
     "## Completed Steps:"]
  let steps := s.completed_steps.map (fun st => "- ✅ " ++ step_display_name st)
  let issues :=
    if s.errors ≠ [] then
      ["", "## Issues:"] ++ (s.errors.take 3).map (fun e => "- ❌ " ++ e)
    else []
  String.intercalate "\n" (header ++ steps ++ issues)

/-- The initial state built by `EnhancedResearchWorkflow.run` at wall-clock
time `t0`. -/
def initial_state (query : String) (t0 : ℚ) : WFState :=
  { query := query, papers_found := [], completed_steps := [],
    current_step := "literature_search", errors := [],
    workflow_start_time := some t0, analysis_completed := false,
    workflow_completed := false }

/-- `EnhancedResearchWorkflow.run`: `invoke` is the compiled graph
invocation (raising modelled as `Except.error` with the exception's
message), `execution_time` the elapsed wall-clock duration measured around
it, and `cache` the process-wide cache read by the performance report.  On
an escaping exception the initial state is updated in place with the
recovery fields and returned. -/
def run (query : String) (t0 : ℚ) (invoke : WFState → Except String WFState)
    (execution_time : ℚ) (cache : CacheManager.CacheState) : WFState :=
  let init := initial_state query t0
  match invoke init with
  | .ok final0 =>
    let final1 :=
      if execution_time > 1800 then
        { final0 with errors := final0.errors ++ ["Workflow timeout"],
                      workflow_completed := false }
      else final0
    let final2 := { final1 with total_execution_time := some execution_time }
    { final2 with performance_report := some (generate_performance_report final2 cache) }
  | .error e =>
    { init with
      errors := init.errors ++ ["Workflow failure: " ++ e],
      workflow_completed := false,
      analysis_summary :=
        some "⚠️ **Workflow Error**: Unable to complete full analysis due to system error",
      key_themes := some [],
      research_gaps := some [],
      hypotheses := some [],
      executive_summary :=
        some ("# Error Report\n\nWorkflow failed to complete due to: " ++ e ++
          "\n\nPlease try again or contact support.") }

/-- A stage function that raises on every call. -/
def AlwaysFails (func : RetryManager.StageFn) : Prop :=
  ∀ st, ∃ e, func st = Except.error e

/-! ## Concrete scenario inputs used by counterexamples and witnesses -/

/-- A state carrying one high-complexity escalation whose reason names
literature: the escalation override routes on every iteration without
setting any once-per-run marker. -/
def escLoopState : WFState :=
  { emptyWF with escalations :=
      [{ sender := "analysis_agent", reason := "literature problem",
         complexity := "high" }] }

/-- A small two-entry cache at capacity 5 bytes: k1 written at time 0,
k2 written at time 1, both of size 2. -/
def lruDemoCache : CacheManager.CacheState :=
  { files := [("k1", "aa"), ("k2", "bb")],
    entries :=
      [("k1", { created := 0, size := 2, ttl_seconds := 86400,
                access_count := 1, last_accessed := 0 }),
       ("k2", { created := 1, size := 2, ttl_seconds := 86400,
                access_count := 1, last_accessed := 1 })],
    total_size := 4, max_size_bytes := 5, default_ttl := 86400 }

/-- A consistent one-entry cache of capacity 10 bytes holding 8 bytes. -/
def nearCapCache : CacheManager.CacheState :=
  { files := [("a", "aaaaaaaa")],
    entries :=
      [("a", { created := 0, size := 8, ttl_seconds := 86400,
               access_count := 1, last_accessed := 0 })],
    total_size := 8, max_size_bytes := 10, default_ttl := 86400 }

end ResearchCollab

namespace ResearchCollab

/-! ## Lemmas about the retry/recovery manager -/

theorem apply_recovery_strategy_completed (s : WFState) (step e : String) :
    (RetryManager.apply_recovery_strategy s step e).completed_steps = s.completed_steps := by
  unfold RetryManager.apply_recovery_strategy
  split_ifs <;>
    simp [RetryManager.recover_literature_search, RetryManager.recover_analysis,
      RetryManager.recover_data_analysis, RetryManager.recover_hypothesis_generation,
      RetryManager.recover_publication, RetryManager.generic_recovery]

theorem apply_recovery_strategy_applied (s : WFState) (step e : String) :
    (RetryManager.apply_recovery_strategy s step e).recovery_applied = true := by
  unfold RetryManager.apply_recovery_strategy
  split_ifs <;>
    simp [RetryManager.recover_literature_search, RetryManager.recover_analysis,
      RetryManager.recover_data_analysis, RetryManager.recover_hypothesis_generation,
      RetryManager.recover_publication, RetryManager.generic_recovery]

theorem retryLoop_completed_of_alwaysFails (func : RetryManager.StageFn)
    (step : String) (hf : AlwaysFails func) :
    ∀ (fuel : Nat) (s : WFState) (rc : Nat) (le : Option String) (att : Nat),
      (RetryManager.retryLoop func step fuel s rc le att).1.completed_steps =
        s.completed_steps := by
  intro fuel
  induction fuel with
  | zero =>
    intro s rc le att
    simp [RetryManager.retryLoop, apply_recovery_strategy_completed]
  | succ n ih =>
    intro s rc le att
    unfold RetryManager.retryLoop
    by_cases h : rc < RetryManager.max_retries
    · obtain ⟨e, he⟩ := hf s
      simp only [if_pos h, he]
      exact ih _ _ _ _
    · simp [if_neg h, apply_recovery_strategy_completed]

/-- One failing attempt of the retry loop. -/
theorem retryLoop_fail_step (func : RetryManager.StageFn) (step : String)
    (fuel : Nat) (s : WFState) (rc : Nat) (le : Option String) (att : Nat)
    (h : rc < RetryManager.max_retries) (e : String) (he : func s = Except.error e) :
    RetryManager.retryLoop func step (fuel + 1) s rc le att =
      RetryManager.retryLoop func step fuel
        { s with retry_counts := dictSet s.retry_counts step (rc + 1) }
        (rc + 1) (some e) (att + 1) := by
  conv_lhs => rw [RetryManager.retryLoop]
  rw [if_pos h, he]

/-- The retry loop with its guard exhausted applies the recovery strategy. -/
theorem retryLoop_stop (func : RetryManager.StageFn) (step : String)
    (fuel : Nat) (s : WFState) (rc : Nat) (le : Option String) (att : Nat)
    (h : ¬ rc < RetryManager.max_retries) :
    RetryManager.retryLoop func step (fuel + 1) s rc le att =
      (RetryManager.apply_recovery_strategy s step (le.getD "None"), att) := by
  conv_lhs => rw [RetryManager.retryLoop]
  rw [if_neg h]

/-- Three always-failing attempts exhaust the loop: the recovery strategy is
applied to the state whose retry counter reached 3, and the stage function
was invoked exactly 3 times. -/
theorem retryLoop_exhaust (func : RetryManager.StageFn) (step : String)
    (hf : AlwaysFails func) (s : WFState) :
    ∃ e, RetryManager.retryLoop func step 4 s 0 none 0 =
      (RetryManager.apply_recovery_strategy
        { s with retry_counts := (dictSet (dictSet (dictSet s.retry_counts step 1) step 2) step 3) }
        step e, 3) := by
  obtain ⟨e1, he1⟩ := hf s
  obtain ⟨e2, he2⟩ := hf { s with retry_counts := dictSet s.retry_counts step 1 }
  obtain ⟨e3, he3⟩ := hf { s with retry_counts := (dictSet (dictSet s.retry_counts step 1) step 2) }
  refine ⟨e3, ?_⟩
  have h1 := retryLoop_fail_step func step 3 s 0 none 0 (by decide) e1 he1
  have h2 := retryLoop_fail_step func step 2
    { s with retry_counts := dictSet s.retry_counts step 1 } 1 (some e1) 1 (by decide) e2 he2
  have h3 := retryLoop_fail_step func step 1
    { s with retry_counts := (dictSet (dictSet s.retry_counts step 1) step 2) } 2 (some e2) 2
    (by decide) e3 he3
  have h4 := retryLoop_stop func step 0
    { s with retry_counts := (dictSet (dictSet (dictSet s.retry_counts step 1) step 2) step 3) } 3
    (some e3) 3 (by decide)
  exact h1.trans (h2.trans (h3.trans h4))

/-- **C1** (counterexample): for a stage function that raises on every call
and an initial state with empty `completed_steps`, `execute_with_retry`
returns a state in which the step name does not occur in `completed_steps`
at all — it is not present exactly once as claimed. -/
theorem c1_counterexample_retry_completed :
    ((RetryManager.execute_with_retry (fun _ => Except.error "boom")
        emptyWF "literature_search").1.completed_steps.count "literature_search") ≠ 1 := by
  decide

/-- **C1** (amended): `execute_with_retry` itself never touches
`completed_steps`: when every attempt fails, the state returned through the
fallback recovery strategy carries exactly the input state's
`completed_steps`, so the step name is present exactly once only if the
stage's node function had already ensured that. -/
theorem c1_amended_retry_preserves_completed (func : RetryManager.StageFn)
    (s : WFState) (step : String) (hf : AlwaysFails func) :
    (RetryManager.execute_with_retry func s step).1.completed_steps =
      s.completed_steps := by
  unfold RetryManager.execute_with_retry
  exact retryLoop_completed_of_alwaysFails func step hf _ _ _ _ _

/-- Witness for the amended C1 at a concrete always-failing stage
function. -/
theorem c1_amended_retry_preserves_completed_witness :
    AlwaysFails (fun _ => Except.error "x") ∧
    (RetryManager.execute_with_retry (fun _ => Except.error "x")
        emptyWF "analysis").1.completed_steps = emptyWF.completed_steps :=
  ⟨fun _ => ⟨"x", rfl⟩,
   c1_amended_retry_preserves_completed _ _ _ (fun _ => ⟨"x", rfl⟩)⟩

/-- **C2**: for a stage function that raises on every call and a state with
no retry-count entry for the step, `execute_with_retry` performs exactly
`max_retries = 3` attempts and returns the stage's deterministic fallback:
`recovery_applied` is set, and for the `literature_search` step the result
holds the single fallback paper with `recovery_type = "literature_fallback"`. -/
theorem c2_retry_bound_fallback (func : RetryManager.StageFn) (s : WFState)
    (step : String) (hf : AlwaysFails func)
    (h0 : dictGet s.retry_counts step = none) :
    (RetryManager.execute_with_retry func s step).2 = 3 ∧
    (RetryManager.execute_with_retry func s step).1.recovery_applied = true ∧
    (step = "literature_search" →
      (RetryManager.execute_with_retry func s step).1.papers_found =
        [{ title := "Fallback Research Paper on Topic",
           authors := ["Recovery Author"],
           abstract := "This is a fallback paper for the query: " ++ s.query,
           url := "http://example.com/fallback",
           source := "recovery_system" }] ∧
      (RetryManager.execute_with_retry func s step).1.recovery_type =
        some "literature_fallback") := by
  obtain ⟨e, he⟩ := retryLoop_exhaust func step hf s
  have hrun : RetryManager.execute_with_retry func s step =
      (RetryManager.apply_recovery_strategy
        { s with retry_counts := (dictSet (dictSet (dictSet s.retry_counts step 1) step 2) step 3) }
        step e, 3) := by
    unfold RetryManager.execute_with_retry
    rw [h0]
    exact he
  refine ⟨by rw [hrun], by rw [hrun]; exact apply_recovery_strategy_applied _ _ _, ?_⟩
  intro hstep
  subst hstep
  rw [hrun]
  constructor <;>
    simp [RetryManager.apply_recovery_strategy, RetryManager.recover_literature_search]

/-- Witness for C2 at a concrete always-failing stage function. -/
theorem c2_retry_bound_fallback_witness :
    (AlwaysFails (fun _ => Except.error "x") ∧
      dictGet emptyWF.retry_counts "literature_search" = none) ∧
    ((RetryManager.execute_with_retry (fun _ => Except.error "x")
        emptyWF "literature_search").2 = 3 ∧
     (RetryManager.execute_with_retry (fun _ => Except.error "x")
        emptyWF "literature_search").1.recovery_applied = true ∧
     ("literature_search" = "literature_search" →
       (RetryManager.execute_with_retry (fun _ => Except.error "x")
          emptyWF "literature_search").1.papers_found =
         [{ title := "Fallback Research Paper on Topic",
            authors := ["Recovery Author"],
            abstract := "This is a fallback paper for the query: " ++ emptyWF.query,
            url := "http://example.com/fallback",
            source := "recovery_system" }] ∧
       (RetryManager.execute_with_retry (fun _ => Except.error "x")
          emptyWF "literature_search").1.recovery_type =
         some "literature_fallback")) :=
  ⟨⟨fun _ => ⟨"x", rfl⟩, rfl⟩,
   c2_retry_bound_fallback _ _ _ (fun _ => ⟨"x", rfl⟩) rfl⟩

/-! ## Lemmas about association-list dicts -/

theorem dictGet_dictSet_self {α : Type} (l : List (String × α)) (k : String) (v : α) :
    dictGet (dictSet l k v) k = some v := by
  induction l with
  | nil => simp [dictSet, dictGet]
  | cons hd t ih =>
    obtain ⟨k1, v1⟩ := hd
    by_cases hk : k1 = k
    · simp [dictSet, hk, dictGet]
    · simp [dictSet, hk, dictGet, ih]

theorem dictGet_dictSet_ne {α : Type} (l : List (String × α)) (k k2 : String) (v : α)
    (h : k2 ≠ k) : dictGet (dictSet l k v) k2 = dictGet l k2 := by
  induction l with
  | nil => simp [dictSet, dictGet, Ne.symm h]
  | cons hd t ih =>
    obtain ⟨k1, v1⟩ := hd
    by_cases hk : k1 = k
    · subst hk
      simp [dictSet, dictGet, Ne.symm h]
    · simp only [dictSet, if_neg hk, dictGet]
      by_cases hk2 : k1 = k2 <;> simp [hk2, ih]

theorem dictGet_eq_none_iff {α : Type} (l : List (String × α)) (k : String) :
    dictGet l k = none ↔ k ∉ dictKeys l := by
  induction l with
  | nil => simp [dictGet, dictKeys]
  | cons hd t ih =>
    obtain ⟨k1, v1⟩ := hd
    by_cases hk : k1 = k
    · subst hk
      simp [dictGet, dictKeys]
    · simp only [dictGet, if_neg hk, dictKeys, List.map_cons, List.mem_cons, ih]
      constructor
      · intro h1 h2
        rcases h2 with h2 | h2
        · exact hk h2.symm
        · exact h1 h2
      · intro h1 h2
        exact h1 (Or.inr h2)

theorem dictGet_dictDel_ne {α : Type} (l : List (String × α)) (k k2 : String)
    (h : k2 ≠ k) : dictGet (dictDel l k) k2 = dictGet l k2 := by
  induction l with
  | nil => simp [dictDel]
  | cons hd t ih =>
    obtain ⟨k1, v1⟩ := hd
    by_cases hk : k1 = k
    · subst hk
      simp [dictDel, dictGet, Ne.symm h]
    · simp only [dictDel, if_neg hk, dictGet]
      by_cases hk2 : k1 = k2 <;> simp [hk2, ih]

theorem dictGet_dictDel_self {α : Type} (l : List (String × α)) (k : String)
    (hnd : (dictKeys l).Nodup) : dictGet (dictDel l k) k = none := by
  induction l with
  | nil => simp [dictDel, dictGet]
  | cons hd t ih =>
    obtain ⟨k1, v1⟩ := hd
    simp only [dictKeys, List.map_cons, List.nodup_cons] at hnd
    by_cases hk : k1 = k
    · subst hk
      simp only [dictDel, if_pos rfl]
      exact (dictGet_eq_none_iff t k1).mpr hnd.1
    · simp [dictDel, hk, dictGet, ih hnd.2]

theorem dictKeys_dictDel_sublist {α : Type} (l : List (String × α)) (k : String) :
    (dictKeys (dictDel l k)).Sublist (dictKeys l) := by
  induction l with
  | nil => simp [dictDel]
  | cons hd t ih =>
    obtain ⟨k1, v1⟩ := hd
    by_cases hk : k1 = k
    · simp only [dictDel, if_pos hk, dictKeys, List.map_cons]
      exact List.Sublist.cons _ (List.Sublist.refl _)
    · simp only [dictDel, if_neg hk, dictKeys, List.map_cons]
      exact List.Sublist.cons₂ _ ih

theorem dictKeys_dictDel_nodup {α : Type} (l : List (String × α)) (k : String)
    (hnd : (dictKeys l).Nodup) : (dictKeys (dictDel l k)).Nodup :=
  hnd.sublist (dictKeys_dictDel_sublist l k)

theorem mem_dictKeys_dictSet {α : Type} (l : List (String × α)) (k : String) (v : α)
    (x : String) : x ∈ dictKeys (dictSet l k v) ↔ x ∈ dictKeys l ∨ x = k := by
  induction l with
  | nil => simp [dictSet, dictKeys]
  | cons hd t ih =>
    obtain ⟨k1, v1⟩ := hd
    by_cases hk : k1 = k
    · subst hk
      simp only [dictSet, if_pos, dictKeys, List.map_cons, List.mem_cons]
      tauto
    · simp only [dictSet, if_neg hk, dictKeys, List.map_cons, List.mem_cons] at ih ⊢
      rw [ih]
      tauto

theorem dictKeys_dictSet_nodup {α : Type} (l : List (String × α)) (k : String) (v : α)
    (hnd : (dictKeys l).Nodup) : (dictKeys (dictSet l k v)).Nodup := by
  induction l with
  | nil => simp [dictSet, dictKeys]
  | cons hd t ih =>
    obtain ⟨k1, v1⟩ := hd
    simp only [dictKeys, List.map_cons, List.nodup_cons] at hnd
    by_cases hk : k1 = k
    · subst hk
      simp only [dictSet, if_pos, dictKeys, List.map_cons, List.nodup_cons]
      exact hnd
    · simp only [dictSet, if_neg hk, dictKeys, List.map_cons, List.nodup_cons]
      refine ⟨?_, ih hnd.2⟩
      intro hmem
      rcases (mem_dictKeys_dictSet t k v k1).mp hmem with h1 | h1
      · exact hnd.1 h1
      · exact hk h1

theorem mem_of_mem_dictDel {α : Type} (l : List (String × α)) (k : String)
    (p : String × α) (hp : p ∈ dictDel l k) : p ∈ l := by
  induction l with
  | nil => simp [dictDel] at hp
  | cons hd t ih =>
    obtain ⟨k1, v1⟩ := hd
    by_cases hk : k1 = k
    · simp only [dictDel, if_pos hk] at hp
      exact List.mem_cons_of_mem _ hp
    · simp only [dictDel, if_neg hk] at hp
      rcases List.mem_cons.mp hp with h1 | h1
      · exact h1 ▸ List.mem_cons_self _ _
      · exact List.mem_cons_of_mem _ (ih h1)

theorem dictGet_of_mem_nodup {α : Type} (l : List (String × α))
    (p : String × α) (hnd : (dictKeys l).Nodup) (hp : p ∈ l) :
    dictGet l p.1 = some p.2 := by
  induction l with
  | nil => simp at hp
  | cons hd t ih =>
    obtain ⟨k1, v1⟩ := hd
    simp only [dictKeys, List.map_cons, List.nodup_cons] at hnd
    rcases List.mem_cons.mp hp with h1 | h1
    · subst h1
      simp [dictGet]
    · have hne : k1 ≠ p.1 := by
        intro hh
        exact hnd.1 (hh ▸ (List.mem_map.mpr ⟨p, h1, rfl⟩))
      simp [dictGet, hne, ih hnd.2 h1]

theorem sumSizes_dictDel (l : List (String × CacheManager.CEntry)) (k : String)
    (e : CacheManager.CEntry) (hget : dictGet l k = some e) :
    CacheManager.sumSizes (dictDel l k) = CacheManager.sumSizes l - e.size := by
  induction l with
  | nil => simp [dictGet] at hget
  | cons hd t ih =>
    obtain ⟨k1, v1⟩ := hd
    by_cases hk : k1 = k
    · simp only [dictGet, if_pos hk] at hget
      obtain rfl : v1 = e := by injection hget
      simp only [dictDel, if_pos hk, CacheManager.sumSizes, List.map_cons, List.sum_cons]
      omega
    · simp only [dictGet, if_neg hk] at hget
      simp only [dictDel, if_neg hk, CacheManager.sumSizes, List.map_cons, List.sum_cons]
      have := ih hget
      simp only [CacheManager.sumSizes] at this
      omega

theorem sumSizes_dictSet_none (l : List (String × CacheManager.CEntry)) (k : String)
    (v : CacheManager.CEntry) (hget : dictGet l k = none) :
    CacheManager.sumSizes (dictSet l k v) = CacheManager.sumSizes l + v.size := by
  induction l with
  | nil => simp [dictSet, CacheManager.sumSizes]
  | cons hd t ih =>
    obtain ⟨k1, v1⟩ := hd
    by_cases hk : k1 = k
    · simp [dictGet, hk] at hget
    · simp only [dictGet, if_neg hk] at hget
      simp only [dictSet, if_neg hk, CacheManager.sumSizes, List.map_cons, List.sum_cons]
      have := ih hget
      simp only [CacheManager.sumSizes] at this
      omega

theorem sumSizes_dictSet_some (l : List (String × CacheManager.CEntry)) (k : String)
    (v e : CacheManager.CEntry) (hget : dictGet l k = some e) :
    CacheManager.sumSizes (dictSet l k v) =
      CacheManager.sumSizes l - e.size + v.size := by
  induction l with
  | nil => simp [dictGet] at hget
  | cons hd t ih =>
    obtain ⟨k1, v1⟩ := hd
    by_cases hk : k1 = k
    · simp only [dictGet, if_pos hk] at hget
      obtain rfl : v1 = e := by injection hget
      simp only [dictSet, if_pos hk, CacheManager.sumSizes, List.map_cons, List.sum_cons]
      omega
    · simp only [dictGet, if_neg hk] at hget
      simp only [dictSet, if_neg hk, CacheManager.sumSizes, List.map_cons, List.sum_cons]
      have := ih hget
      simp only [CacheManager.sumSizes] at this
      omega

/-! ## Lemmas about the cache store -/

theorem delete_entry_max (k : String) (cs : CacheManager.CacheState) :
    (CacheManager.delete_entry k cs).max_size_bytes = cs.max_size_bytes := by
  unfold CacheManager.delete_entry
  cases dictGet cs.entries k <;> rfl

theorem delete_entry_default_ttl (k : String) (cs : CacheManager.CacheState) :
    (CacheManager.delete_entry k cs).default_ttl = cs.default_ttl := by
  unfold CacheManager.delete_entry
  cases dictGet cs.entries k <;> rfl

theorem delete_entry_nodups (k : String) (cs : CacheManager.CacheState)
    (hf : (dictKeys cs.files).Nodup) (he : (dictKeys cs.entries).Nodup) :
    (dictKeys (CacheManager.delete_entry k cs).files).Nodup ∧
    (dictKeys (CacheManager.delete_entry k cs).entries).Nodup := by
  unfold CacheManager.delete_entry
  cases dictGet cs.entries k
  · exact ⟨dictKeys_dictDel_nodup _ _ hf, he⟩
  · exact ⟨dictKeys_dictDel_nodup _ _ hf, dictKeys_dictDel_nodup _ _ he⟩

theorem delete_entry_wf (k : String) (cs : CacheManager.CacheState)
    (h : CacheManager.CacheWF cs) : CacheManager.CacheWF (CacheManager.delete_entry k cs) := by
  obtain ⟨hf, he, hsum⟩ := h
  unfold CacheManager.delete_entry
  cases hget : dictGet cs.entries k
  · exact ⟨dictKeys_dictDel_nodup _ _ hf, he, hsum⟩
  · refine ⟨dictKeys_dictDel_nodup _ _ hf, dictKeys_dictDel_nodup _ _ he, ?_⟩
    rw [sumSizes_dictDel _ _ _ hget, hsum]

theorem evictLoop_max (ks : List String) (cs : CacheManager.CacheState) :
    (CacheManager.evictLoop ks cs).max_size_bytes = cs.max_size_bytes := by
  induction ks generalizing cs with
  | nil => rfl
  | cons k t ih =>
    unfold CacheManager.evictLoop
    split_ifs
    · rfl
    · rw [ih, delete_entry_max]

theorem evictLoop_default_ttl (ks : List String) (cs : CacheManager.CacheState) :
    (CacheManager.evictLoop ks cs).default_ttl = cs.default_ttl := by
  induction ks generalizing cs with
  | nil => rfl
  | cons k t ih =>
    unfold CacheManager.evictLoop
    split_ifs
    · rfl
    · rw [ih, delete_entry_default_ttl]

theorem evictLoop_nodups (ks : List String) (cs : CacheManager.CacheState)
    (hf : (dictKeys cs.files).Nodup) (he : (dictKeys cs.entries).Nodup) :
    (dictKeys (CacheManager.evictLoop ks cs).files).Nodup ∧
    (dictKeys (CacheManager.evictLoop ks cs).entries).Nodup := by
  induction ks generalizing cs with
  | nil => exact ⟨hf, he⟩
  | cons k t ih =>
    unfold CacheManager.evictLoop
    split_ifs
    · exact ⟨hf, he⟩
    · obtain ⟨hf2, he2⟩ := delete_entry_nodups k cs hf he
      exact ih _ hf2 he2

theorem evictLoop_wf (ks : List String) (cs : CacheManager.CacheState)
    (h : CacheManager.CacheWF cs) : CacheManager.CacheWF (CacheManager.evictLoop ks cs) := by
  induction ks generalizing cs with
  | nil => exact h
  | cons k t ih =>
    unfold CacheManager.evictLoop
    split_ifs
    · exact h
    · exact ih _ (delete_entry_wf k cs h)

theorem cleanup_max (cs : CacheManager.CacheState) :
    (CacheManager.cleanup_if_needed cs).max_size_bytes = cs.max_size_bytes := by
  unfold CacheManager.cleanup_if_needed
  split_ifs
  · rfl
  · rw [evictLoop_max]

theorem cleanup_default_ttl (cs : CacheManager.CacheState) :
    (CacheManager.cleanup_if_needed cs).default_ttl = cs.default_ttl := by
  unfold CacheManager.cleanup_if_needed
  split_ifs
  · rfl
  · rw [evictLoop_default_ttl]

theorem cleanup_nodups (cs : CacheManager.CacheState)
    (hf : (dictKeys cs.files).Nodup) (he : (dictKeys cs.entries).Nodup) :
    (dictKeys (CacheManager.cleanup_if_needed cs).files).Nodup ∧
    (dictKeys (CacheManager.cleanup_if_needed cs).entries).Nodup := by
  unfold CacheManager.cleanup_if_needed
  split_ifs
  · exact ⟨hf, he⟩
  · exact evictLoop_nodups _ _ hf he

theorem cleanup_wf (cs : CacheManager.CacheState) (h : CacheManager.CacheWF cs) :
    CacheManager.CacheWF (CacheManager.cleanup_if_needed cs) := by
  unfold CacheManager.cleanup_if_needed
  split_ifs
  · exact h
  · exact evictLoop_wf _ _ h

/-- **C7**: a successful `set(k, v, ttl)` followed immediately by `get(k)`
returns `v`; once the entry's age exceeds its TTL, `get(k)` is a miss and
removes both the entry and its file. -/
theorem c7_cache_set_get_ttl (cs : CacheManager.CacheState) (now now2 : Int)
    (k v : String) (ttl : Option Int)
    (hfnd : (dictKeys cs.files).Nodup) (hend : (dictKeys cs.entries).Nodup)
    (httl : 0 ≤ ttl.getD cs.default_ttl) :
    (CacheManager.get now k (CacheManager.set now k v ttl cs).2).1 = some v ∧
    (now2 - now > ttl.getD cs.default_ttl →
      (CacheManager.get now2 k (CacheManager.set now k v ttl cs).2).1 = none ∧
      dictGet ((CacheManager.get now2 k (CacheManager.set now k v ttl cs).2).2).entries k = none ∧
      dictGet ((CacheManager.get now2 k (CacheManager.set now k v ttl cs).2).2).files k = none) := by
  have httl1 : ttl.getD ((CacheManager.cleanup_if_needed cs).default_ttl) =
      ttl.getD cs.default_ttl := by rw [cleanup_default_ttl]
  obtain ⟨hf1, he1⟩ := cleanup_nodups cs hfnd hend
  have hfiles : dictGet (CacheManager.set now k v ttl cs).2.files k = some v :=
    dictGet_dictSet_self _ _ _
  have hent : dictGet (CacheManager.set now k v ttl cs).2.entries k =
      some { created := now, size := (v.length : Int),
             ttl_seconds := ttl.getD ((CacheManager.cleanup_if_needed cs).default_ttl),
             access_count := 1, last_accessed := now } :=
    dictGet_dictSet_self _ _ _
  have hfresh : ¬ (now - now >
      ttl.getD ((CacheManager.cleanup_if_needed cs).default_ttl)) := by
    rw [httl1]
    omega
  constructor
  · unfold CacheManager.get
    rw [hfiles, hent]
    simp only [if_neg hfresh]
  · intro hexp
    have hexp1 : now2 -
        ({ created := now, size := (v.length : Int),
           ttl_seconds := ttl.getD ((CacheManager.cleanup_if_needed cs).default_ttl),
           access_count := 1, last_accessed := now } : CacheManager.CEntry).created >
        ({ created := now, size := (v.length : Int),
           ttl_seconds := ttl.getD ((CacheManager.cleanup_if_needed cs).default_ttl),
           access_count := 1, last_accessed := now } : CacheManager.CEntry).ttl_seconds := by
      simp only [httl1]
      omega
    have hnodf : (dictKeys (CacheManager.set now k v ttl cs).2.files).Nodup :=
      dictKeys_dictSet_nodup _ _ _ hf1
    have hnode : (dictKeys (CacheManager.set now k v ttl cs).2.entries).Nodup :=
      dictKeys_dictSet_nodup _ _ _ he1
    have hdel : (CacheManager.get now2 k (CacheManager.set now k v ttl cs).2).2 =
        CacheManager.delete_entry k (CacheManager.set now k v ttl cs).2 := by
      unfold CacheManager.get
      rw [hfiles, hent]
      simp only [if_pos hexp1]
    have hmiss : (CacheManager.get now2 k (CacheManager.set now k v ttl cs).2).1 = none := by
      unfold CacheManager.get
      rw [hfiles, hent]
      simp only [if_pos hexp1]
    refine ⟨hmiss, ?_, ?_⟩
    · rw [hdel]
      unfold CacheManager.delete_entry
      rw [hent]
      exact dictGet_dictDel_self _ _ hnode
    · rw [hdel]
      unfold CacheManager.delete_entry
      rw [hent]
      exact dictGet_dictDel_self _ _ hnodf

/-- Witness for C7 on a fresh default cache. -/
theorem c7_cache_set_get_ttl_witness :
    ((dictKeys (CacheManager.init 100).files).Nodup ∧
     (dictKeys (CacheManager.init 100).entries).Nodup ∧
     0 ≤ (none : Option Int).getD (CacheManager.init 100).default_ttl) ∧
    ((CacheManager.get 0 "k" (CacheManager.set 0 "k" "vv" none (CacheManager.init 100)).2).1 =
      some "vv" ∧
     (100000 - 0 > (none : Option Int).getD (CacheManager.init 100).default_ttl →
       (CacheManager.get 100000 "k"
          (CacheManager.set 0 "k" "vv" none (CacheManager.init 100)).2).1 = none ∧
       dictGet ((CacheManager.get 100000 "k"
          (CacheManager.set 0 "k" "vv" none (CacheManager.init 100)).2).2).entries "k" = none ∧
       dictGet ((CacheManager.get 100000 "k"
          (CacheManager.set 0 "k" "vv" none (CacheManager.init 100)).2).2).files "k" = none)) :=
  ⟨⟨by decide, by decide, by decide⟩,
   c7_cache_set_get_ttl (CacheManager.init 100) 0 100000 "k" "vv" none
     (by decide) (by decide) (by decide)⟩

theorem foldl_delete_wf (ks : List String) (cs : CacheManager.CacheState)
    (h : CacheManager.CacheWF cs) :
    CacheManager.CacheWF (ks.foldl (fun c j => CacheManager.delete_entry j c) cs) := by
  induction ks generalizing cs with
  | nil => exact h
  | cons k t ih => exact ih _ (delete_entry_wf k cs h)

theorem clear_expired_wf (now : Int) (cs : CacheManager.CacheState)
    (h : CacheManager.CacheWF cs) :
    CacheManager.CacheWF (CacheManager.clear_expired now cs) := by
  unfold CacheManager.clear_expired
  exact foldl_delete_wf _ _ h

theorem get_wf (now : Int) (k : String) (cs : CacheManager.CacheState)
    (h : CacheManager.CacheWF cs) : CacheManager.CacheWF (CacheManager.get now k cs).2 := by
  unfold CacheManager.get
  split
  · exact h
  · split
    · split_ifs
      · exact delete_entry_wf _ _ h
      · exact h
    · exact h

/-- **C9** (counterexample): `set` on a key that already has a live entry
adds the new file's size without subtracting the replaced entry's, so
`total_size` no longer equals the sum of live entry sizes; and a `set`
whose write overflows the byte budget leaves the total above capacity
(cleanup only runs at the start of the next `set`). -/
theorem c9_counterexample_cache_accounting :
    ((CacheManager.set 1 "k" "bbb" none
        (CacheManager.set 0 "k" "aa" none (CacheManager.init 100)).2).2.total_size ≠
      CacheManager.sumSizes (CacheManager.set 1 "k" "bbb" none
        (CacheManager.set 0 "k" "aa" none (CacheManager.init 100)).2).2.entries) ∧
    (CacheManager.CacheWF nearCapCache ∧
      nearCapCache.total_size ≤ nearCapCache.max_size_bytes ∧
      (CacheManager.set 0 "b" "bbbbb" none nearCapCache).2.total_size >
        (CacheManager.set 0 "b" "bbbbb" none nearCapCache).2.max_size_bytes) := by
  refine ⟨by decide, ⟨⟨by decide, by decide, by decide⟩, by decide, by decide⟩⟩

/-- **C9** (amended): the invariant `total_size = sum of live entry sizes`
is preserved by `get`, `clear_expired` and by `set` on a key with no live
entry after the capacity check; `set` on a live key silently overwrites the
metadata entry and leaks exactly the replaced entry's size into
`total_size`; the sum is not bounded by capacity after every operation —
the budget is only re-established by the next `set`'s cleanup. -/
theorem c9_amended_cache_accounting (cs : CacheManager.CacheState) (now : Int)
    (k v : String) (ttl : Option Int) (h : CacheManager.CacheWF cs) :
    CacheManager.CacheWF (CacheManager.get now k cs).2 ∧
    CacheManager.CacheWF (CacheManager.clear_expired now cs) ∧
    (dictGet (CacheManager.cleanup_if_needed cs).entries k = none →
      CacheManager.CacheWF (CacheManager.set now k v ttl cs).2) ∧
    (∀ e, dictGet (CacheManager.cleanup_if_needed cs).entries k = some e →
      (CacheManager.set now k v ttl cs).2.total_size =
        CacheManager.sumSizes (CacheManager.set now k v ttl cs).2.entries + e.size) := by
  obtain ⟨hf1, he1, hsum1⟩ := cleanup_wf cs h
  have hentries : (CacheManager.set now k v ttl cs).2.entries =
      dictSet (CacheManager.cleanup_if_needed cs).entries k
        { created := now, size := (v.length : Int),
          ttl_seconds := ttl.getD ((CacheManager.cleanup_if_needed cs).default_ttl),
          access_count := 1, last_accessed := now } := rfl
  have hfiles : (CacheManager.set now k v ttl cs).2.files =
      dictSet (CacheManager.cleanup_if_needed cs).files k v := rfl
  have htotal : (CacheManager.set now k v ttl cs).2.total_size =
      (CacheManager.cleanup_if_needed cs).total_size + (v.length : Int) := rfl
  refine ⟨get_wf now k cs h, clear_expired_wf now cs h, ?_, ?_⟩
  · intro hnone
    refine ⟨?_, ?_, ?_⟩
    · rw [hfiles]
      exact dictKeys_dictSet_nodup _ _ _ hf1
    · rw [hentries]
      exact dictKeys_dictSet_nodup _ _ _ he1
    · rw [htotal, hentries, sumSizes_dictSet_none _ _ _ hnone, hsum1]
  · intro e hsome
    rw [htotal, hentries, sumSizes_dictSet_some _ _ _ _ hsome, hsum1]
    dsimp only
    omega

/-- Witness for the amended C9 on the near-capacity cache. -/
theorem c9_amended_cache_accounting_witness :
    CacheManager.CacheWF nearCapCache ∧
    (CacheManager.CacheWF (CacheManager.get 2 "a" nearCapCache).2 ∧
     CacheManager.CacheWF (CacheManager.clear_expired 2 nearCapCache) ∧
     (dictGet (CacheManager.cleanup_if_needed nearCapCache).entries "b" = none →
       CacheManager.CacheWF (CacheManager.set 2 "b" "x" none nearCapCache).2) ∧
     (∀ e, dictGet (CacheManager.cleanup_if_needed nearCapCache).entries "b" = some e →
       (CacheManager.set 2 "b" "x" none nearCapCache).2.total_size =
         CacheManager.sumSizes (CacheManager.set 2 "b" "x" none nearCapCache).2.entries +
           e.size)) :=
  ⟨⟨by decide, by decide, by decide⟩,
   c9_amended_cache_accounting nearCapCache 2 "b" "x" none ⟨by decide, by decide, by decide⟩⟩

/-! ## Eviction-order lemmas -/

theorem dictDel_eq_self_of_none {α : Type} (l : List (String × α)) (k : String)
    (h : dictGet l k = none) : dictDel l k = l := by
  induction l with
  | nil => rfl
  | cons hd t ih =>
    obtain ⟨k1, v1⟩ := hd
    by_cases hk : k1 = k
    · simp [dictGet, hk] at h
    · simp only [dictGet, if_neg hk] at h
      simp [dictDel, hk, ih h]

theorem mem_of_dictGet {α : Type} (l : List (String × α)) (k : String) (v : α)
    (h : dictGet l k = some v) : (k, v) ∈ l := by
  induction l with
  | nil => simp [dictGet] at h
  | cons hd t ih =>
    obtain ⟨k1, v1⟩ := hd
    by_cases hk : k1 = k
    · subst hk
      simp only [dictGet, if_pos rfl] at h
      obtain rfl : v1 = v := by injection h
      exact List.mem_cons_self _ _
    · simp only [dictGet, if_neg hk] at h
      exact List.mem_cons_of_mem _ (ih h)

theorem delete_entry_entries (k : String) (cs : CacheManager.CacheState) :
    (CacheManager.delete_entry k cs).entries = dictDel cs.entries k := by
  unfold CacheManager.delete_entry
  cases hget : dictGet cs.entries k
  · exact (dictDel_eq_self_of_none _ _ hget).symm
  · rfl

theorem ne_of_mem_dictDel {α : Type} (l : List (String × α)) (k : String)
    (p : String × α) (hnd : (dictKeys l).Nodup) (hp : p ∈ dictDel l k) : p.1 ≠ k := by
  intro hk
  subst hk
  have hsome := dictGet_of_mem_nodup (dictDel l p.1) p
    (dictKeys_dictDel_nodup l p.1 hnd) hp
  rw [dictGet_dictDel_self l p.1 hnd] at hsome
  exact Option.noConfusion hsome

theorem dictGet_none_dictDel {α : Type} (l : List (String × α)) (k j : String)
    (h : dictGet l j = none) : dictGet (dictDel l k) j = none := by
  rw [dictGet_eq_none_iff] at h ⊢
  intro hmem
  exact h ((dictKeys_dictDel_sublist l k).mem hmem)

theorem evictLoop_none_mono (ks : List String) (cs : CacheManager.CacheState)
    (j : String) (h : dictGet cs.entries j = none) :
    dictGet (CacheManager.evictLoop ks cs).entries j = none := by
  induction ks generalizing cs with
  | nil => exact h
  | cons k t ih =>
    unfold CacheManager.evictLoop
    split_ifs
    · exact h
    · refine ih _ ?_
      rw [delete_entry_entries]
      exact dictGet_none_dictDel _ _ _ h

/-- Keys evicted by the loop come before surviving keys in the (sorted)
key snapshot: the measure function `f` records each key's last-accessed
stamp at loop entry. -/
theorem evictLoop_pairwise (f : String → Int) :
    ∀ (ks : List String) (cs : CacheManager.CacheState),
    (dictKeys cs.entries).Nodup →
    (∀ p ∈ cs.entries, f p.1 = p.2.last_accessed) →
    (∀ p ∈ cs.entries, p.1 ∈ ks) →
    ks.Pairwise (fun a b => f a ≤ f b) →
    ∀ k1 e1 k2 e2, dictGet cs.entries k1 = some e1 →
      dictGet cs.entries k2 = some e2 →
      dictGet (CacheManager.evictLoop ks cs).entries k1 = none →
      (dictGet (CacheManager.evictLoop ks cs).entries k2).isSome = true →
      f k1 ≤ f k2 := by
  intro ks
  induction ks with
  | nil =>
    intro cs _ _ _ _ k1 e1 k2 e2 hg1 _ hn1 _
    rw [show CacheManager.evictLoop [] cs = cs from rfl, hg1] at hn1
    exact Option.noConfusion hn1
  | cons k t ih =>
    intro cs hnd hcompat hcov hsort k1 e1 k2 e2 hg1 hg2 hn1 hs2
    rw [show CacheManager.evictLoop (k :: t) cs =
        (if 5 * cs.total_size ≤ 4 * cs.max_size_bytes then cs
         else CacheManager.evictLoop t (CacheManager.delete_entry k cs)) from rfl] at hn1 hs2
    split_ifs at hn1 hs2 with hstop
    · rw [hg1] at hn1
      exact Option.noConfusion hn1
    · have hk2ne : k2 ≠ k := by
        intro hk
        subst hk
        have hdel2 : dictGet (CacheManager.delete_entry k2 cs).entries k2 = none := by
          rw [delete_entry_entries]
          exact dictGet_dictDel_self _ _ hnd
        rw [evictLoop_none_mono t _ k2 hdel2] at hs2
        exact Bool.noConfusion hs2
      by_cases hk1 : k1 = k
      · subst hk1
        have hk2mem : k2 ∈ t := by
          have := hcov (k2, e2) (mem_of_dictGet _ _ _ hg2)
          simp only at this
          rcases List.mem_cons.mp this with h1 | h1
          · exact absurd h1 hk2ne
          · exact h1
        exact (List.pairwise_cons.mp hsort).1 k2 hk2mem
      · have hnd2 : (dictKeys (CacheManager.delete_entry k cs).entries).Nodup := by
          rw [delete_entry_entries]
          exact dictKeys_dictDel_nodup _ _ hnd
        have hcompat2 : ∀ p ∈ (CacheManager.delete_entry k cs).entries,
            f p.1 = p.2.last_accessed := by
          intro p hp
          rw [delete_entry_entries] at hp
          exact hcompat p (mem_of_mem_dictDel _ _ _ hp)
        have hcov2 : ∀ p ∈ (CacheManager.delete_entry k cs).entries, p.1 ∈ t := by
          intro p hp
          rw [delete_entry_entries] at hp
          have hmem := hcov p (mem_of_mem_dictDel _ _ _ hp)
          have hne := ne_of_mem_dictDel _ _ _ hnd hp
          rcases List.mem_cons.mp hmem with h1 | h1
          · exact absurd h1 hne
          · exact h1
        have hg1b : dictGet (CacheManager.delete_entry k cs).entries k1 = some e1 := by
          rw [delete_entry_entries, dictGet_dictDel_ne _ _ _ hk1]
          exact hg1
        have hg2b : dictGet (CacheManager.delete_entry k cs).entries k2 = some e2 := by
          rw [delete_entry_entries, dictGet_dictDel_ne _ _ _ hk2ne]
          exact hg2
        exact ih _ hnd2 hcompat2 hcov2 (List.pairwise_cons.mp hsort).2
          k1 e1 k2 e2 hg1b hg2b hn1 hs2

theorem evictLoop_bound :
    ∀ (ks : List String) (cs : CacheManager.CacheState),
    CacheManager.CacheWF cs →
    (∀ p ∈ cs.entries, p.1 ∈ ks) →
    5 * (CacheManager.evictLoop ks cs).total_size ≤ 4 * cs.max_size_bytes ∨
      (CacheManager.evictLoop ks cs).entries = [] := by
  intro ks
  induction ks with
  | nil =>
    intro cs _ hcov
    right
    rw [show CacheManager.evictLoop [] cs = cs from rfl]
    cases hE : cs.entries with
    | nil => rfl
    | cons p t =>
      exact absurd (hcov p (by rw [hE]; exact List.mem_cons_self p t)) (List.not_mem_nil _)
  | cons k t ih =>
    intro cs hwf hcov
    rw [show CacheManager.evictLoop (k :: t) cs =
        (if 5 * cs.total_size ≤ 4 * cs.max_size_bytes then cs
         else CacheManager.evictLoop t (CacheManager.delete_entry k cs)) from rfl]
    split_ifs with hstop
    · exact Or.inl hstop
    · have hcov2 : ∀ p ∈ (CacheManager.delete_entry k cs).entries, p.1 ∈ t := by
        intro p hp
        rw [delete_entry_entries] at hp
        have hmem := hcov p (mem_of_mem_dictDel _ _ _ hp)
        have hne := ne_of_mem_dictDel _ _ _ hwf.2.1 hp
        rcases List.mem_cons.mp hmem with h1 | h1
        · exact absurd h1 hne
        · exact h1
      have := ih (CacheManager.delete_entry k cs) (delete_entry_wf k cs hwf) hcov2
      rw [delete_entry_max] at this
      exact this

/-- **C8** (counterexample): `k1` (size 2, written at time 0, read at time
3) and `k2` (size 2, written at time 1, never read since) both live in a
5-byte cache; inserting `k3` overflows the capacity without evicting, and
the next `set` evicts `k1` — the more recently read entry — while `k2`
remains, because `get` never refreshes `last_accessed`. -/
theorem c8_counterexample_lru_eviction :
    (CacheManager.get 3 "k1" lruDemoCache) = (some "aa", lruDemoCache) ∧
    ((CacheManager.set 4 "k3" "cc" none lruDemoCache).2.total_size = 6 ∧
      (dictGet (CacheManager.set 4 "k3" "cc" none lruDemoCache).2.entries "k1").isSome =
        true) ∧
    (dictGet (CacheManager.set 5 "k4" "d" none
        (CacheManager.set 4 "k3" "cc" none lruDemoCache).2).2.entries "k1" = none ∧
      (dictGet (CacheManager.set 5 "k4" "d" none
        (CacheManager.set 4 "k3" "cc" none lruDemoCache).2).2.entries "k2").isSome =
        true) := by
  refine ⟨by decide, ⟨by decide, by decide⟩, by decide, by decide⟩

/-- **C8** (amended): eviction happens at the start of a `set` that finds
the cache already beyond capacity (the overflowing write itself evicts
nothing); entries are then evicted in ascending *recorded* last-accessed
order — a stamp written only by `set`, never updated by `get` — until
usage is at or below the 80% buffer: an entry with a later recorded stamp
is never evicted while one with an earlier stamp survives. -/
theorem c8_amended_lru_cleanup (cs : CacheManager.CacheState)
    (h : CacheManager.CacheWF cs) :
    (cs.total_size ≤ cs.max_size_bytes → CacheManager.cleanup_if_needed cs = cs) ∧
    (∀ k1 e1 k2 e2, dictGet cs.entries k1 = some e1 →
      dictGet cs.entries k2 = some e2 →
      dictGet (CacheManager.cleanup_if_needed cs).entries k1 = none →
      (dictGet (CacheManager.cleanup_if_needed cs).entries k2).isSome = true →
      e1.last_accessed ≤ e2.last_accessed) ∧
    (cs.total_size > cs.max_size_bytes → 0 ≤ cs.max_size_bytes →
      5 * (CacheManager.cleanup_if_needed cs).total_size ≤ 4 * cs.max_size_bytes) := by
  have hnoop : cs.total_size ≤ cs.max_size_bytes → CacheManager.cleanup_if_needed cs = cs := by
    intro hle
    unfold CacheManager.cleanup_if_needed
    rw [if_pos hle]
  refine ⟨hnoop, ?_, ?_⟩
  · intro k1 e1 k2 e2 hg1 hg2 hn1 hs2
    by_cases hle : cs.total_size ≤ cs.max_size_bytes
    · rw [hnoop hle, hg1] at hn1
      exact Option.noConfusion hn1
    · have hcl : CacheManager.cleanup_if_needed cs =
          CacheManager.evictLoop
            ((List.insertionSort
              (fun a b => a.2.last_accessed ≤ b.2.last_accessed) cs.entries).map
                Prod.fst) cs := by
        unfold CacheManager.cleanup_if_needed
        rw [if_neg hle]
      rw [hcl] at hn1 hs2
      set f : String → Int := fun j =>
        match dictGet cs.entries j with
        | some e => e.last_accessed
        | none => 0 with hf
      have hperm : (List.insertionSort
          (fun a b => a.2.last_accessed ≤ b.2.last_accessed) cs.entries).Perm
            cs.entries := List.perm_insertionSort _ _
      have hmemsort : ∀ p ∈ List.insertionSort
          (fun a b => a.2.last_accessed ≤ b.2.last_accessed) cs.entries,
          p ∈ cs.entries := fun p hp => hperm.mem_iff.mp hp
      have hfval : ∀ p ∈ cs.entries, f p.1 = p.2.last_accessed := by
        intro p hp
        rw [hf]
        simp only [dictGet_of_mem_nodup cs.entries p h.2.1 hp]
      have hsorted : List.Pairwise
          (fun a b : String × CacheManager.CEntry =>
            a.2.last_accessed ≤ b.2.last_accessed)
          (List.insertionSort
            (fun a b => a.2.last_accessed ≤ b.2.last_accessed) cs.entries) := by
        haveI : IsTotal (String × CacheManager.CEntry)
            (fun a b => a.2.last_accessed ≤ b.2.last_accessed) :=
          ⟨fun a b => le_total _ _⟩
        haveI : IsTrans (String × CacheManager.CEntry)
            (fun a b => a.2.last_accessed ≤ b.2.last_accessed) :=
          ⟨fun _ _ _ hab hbc => le_trans hab hbc⟩
        exact List.sorted_insertionSort _ _
      have hpw : (List.map Prod.fst (List.insertionSort
          (fun a b => a.2.last_accessed ≤ b.2.last_accessed) cs.entries)).Pairwise
            (fun a b => f a ≤ f b) := by
        rw [List.pairwise_map]
        refine hsorted.imp_of_mem ?_
        intro a b ha hb hab
        rw [hfval a (hmemsort a ha), hfval b (hmemsort b hb)]
        exact hab
      have hcov : ∀ p ∈ cs.entries, p.1 ∈ List.map Prod.fst
          (List.insertionSort
            (fun a b => a.2.last_accessed ≤ b.2.last_accessed) cs.entries) := by
        intro p hp
        exact List.mem_map_of_mem _ (hperm.mem_iff.mpr hp)
      have hres := evictLoop_pairwise f _ cs h.2.1 hfval hcov hpw
        k1 e1 k2 e2 hg1 hg2 hn1 hs2
      rw [hfval (k1, e1) (mem_of_dictGet _ _ _ hg1),
          hfval (k2, e2) (mem_of_dictGet _ _ _ hg2)] at hres
      exact hres
  · intro hgt hmax
    have hcl : CacheManager.cleanup_if_needed cs =
        CacheManager.evictLoop
          ((List.insertionSort
            (fun a b => a.2.last_accessed ≤ b.2.last_accessed) cs.entries).map
              Prod.fst) cs := by
      unfold CacheManager.cleanup_if_needed
      rw [if_neg (by omega)]
    have hperm : (List.insertionSort
        (fun a b => a.2.last_accessed ≤ b.2.last_accessed) cs.entries).Perm
          cs.entries := List.perm_insertionSort _ _
    have hcov : ∀ p ∈ cs.entries, p.1 ∈ List.map Prod.fst
        (List.insertionSort
          (fun a b => a.2.last_accessed ≤ b.2.last_accessed) cs.entries) := by
      intro p hp
      exact List.mem_map_of_mem _ (hperm.mem_iff.mpr hp)
    have hbound := evictLoop_bound _ cs h hcov
    rcases hbound with hb | hb
    · rw [hcl]
      exact hb
    · have hwf2 := evictLoop_wf ((List.insertionSort
        (fun a b => a.2.last_accessed ≤ b.2.last_accessed) cs.entries).map
          Prod.fst) cs h
      rw [hcl]
      have : (CacheManager.evictLoop ((List.insertionSort
          (fun a b => a.2.last_accessed ≤ b.2.last_accessed) cs.entries).map
            Prod.fst) cs).total_size = 0 := by
        rw [hwf2.2.2, hb]
        rfl
      rw [this]
      omega

/-- Witness for the amended C8 at the over-capacity demo cache. -/
theorem c8_amended_lru_cleanup_witness :
    CacheManager.CacheWF (CacheManager.set 4 "k3" "cc" none lruDemoCache).2 ∧
    (((CacheManager.set 4 "k3" "cc" none lruDemoCache).2.total_size ≤
        (CacheManager.set 4 "k3" "cc" none lruDemoCache).2.max_size_bytes →
      CacheManager.cleanup_if_needed (CacheManager.set 4 "k3" "cc" none lruDemoCache).2 =
        (CacheManager.set 4 "k3" "cc" none lruDemoCache).2) ∧
     (∀ k1 e1 k2 e2,
       dictGet (CacheManager.set 4 "k3" "cc" none lruDemoCache).2.entries k1 = some e1 →
       dictGet (CacheManager.set 4 "k3" "cc" none lruDemoCache).2.entries k2 = some e2 →
       dictGet (CacheManager.cleanup_if_needed
         (CacheManager.set 4 "k3" "cc" none lruDemoCache).2).entries k1 = none →
       (dictGet (CacheManager.cleanup_if_needed
         (CacheManager.set 4 "k3" "cc" none lruDemoCache).2).entries k2).isSome = true →
       e1.last_accessed ≤ e2.last_accessed) ∧
     ((CacheManager.set 4 "k3" "cc" none lruDemoCache).2.total_size >
        (CacheManager.set 4 "k3" "cc" none lruDemoCache).2.max_size_bytes →
      0 ≤ (CacheManager.set 4 "k3" "cc" none lruDemoCache).2.max_size_bytes →
      5 * (CacheManager.cleanup_if_needed
        (CacheManager.set 4 "k3" "cc" none lruDemoCache).2).total_size ≤
        4 * (CacheManager.set 4 "k3" "cc" none lruDemoCache).2.max_size_bytes)) :=
  ⟨⟨by decide, by decide, by decide⟩,
   c8_amended_lru_cleanup (CacheManager.set 4 "k3" "cc" none lruDemoCache).2
     ⟨by decide, by decide, by decide⟩⟩

/-! ## Lemmas about the router -/

theorem snd_mem_of_mem_enum {α : Type} (l : List α) (p : Nat × α)
    (hp : p ∈ l.enum) : p.2 ∈ l := by
  have : p.2 ∈ l.enum.map Prod.snd := List.mem_map_of_mem _ hp
  rwa [List.enum_map_snd] at this

theorem commAssistance_inert (s : WFState)
    (h : ∀ r ∈ s.assistance_requests, r.processed = true) :
    commAssistance s = ("continue", s) := by
  unfold commAssistance
  have hfil : s.assistance_requests.enum.filter (fun p => ¬ p.2.processed) = [] := by
    rw [List.filter_eq_nil_iff]
    intro p hp
    simp [h p.2 (snd_mem_of_mem_enum _ _ hp)]
  rw [hfil]
  rfl

theorem commEscalations_inert (s : WFState)
    (h1 : ∀ e ∈ s.escalations, escReasonInert e)
    (h2 : ∀ r ∈ s.assistance_requests, r.processed = true) :
    commEscalations s = ("continue", s) ∨
    commEscalations s = ("continue", { s with requires_manual_review := true }) := by
  unfold commEscalations
  by_cases hne : s.escalations ≠ [] ∧
      s.escalations.filter (fun e => e.complexity = "high") ≠ []
  · rw [if_pos hne]
    have hlast : ∃ recent, (s.escalations.filter
        (fun e => e.complexity = "high")).getLast? = some recent := by
      cases hE : (s.escalations.filter (fun e => e.complexity = "high")).getLast? with
      | none =>
        exact absurd (List.getLast?_eq_none_iff.mp hE) hne.2
      | some r => exact ⟨r, rfl⟩
    obtain ⟨recent, hrec⟩ := hlast
    rw [hrec]
    have hx : recent ∈ (s.escalations.filter
        (fun e => e.complexity = "high")).getLast? := by rw [hrec]; rfl
    obtain ⟨hne2, heq⟩ := List.mem_getLast?_eq_getLast hx
    have hmem : recent ∈ s.escalations.filter (fun e => e.complexity = "high") := by
      rw [heq]
      exact List.getLast_mem hne2
    have hprop := List.of_mem_filter hmem
    have hesc : recent ∈ s.escalations := List.mem_of_mem_filter hmem
    have hinert := h1 recent hesc (by simpa using hprop)
    dsimp only
    rw [if_neg (by simp [hinert.1, hinert.2.1]), if_neg (by simp [hinert.2.2])]
    right
    exact commAssistance_inert _ h2
  · rw [if_neg hne]
    left
    exact commAssistance_inert _ h2

/-- Under `RouterInv`, `check_communication_routing` either passes through
(with at most the manual-review flag set) or fires one of the three
communication overrides, setting its processing marker. -/
theorem check_comm_cases (s : WFState) (hInv : RouterInv s) :
    (check_communication_routing s = ("continue", s) ∨
     check_communication_routing s =
       ("continue", { s with requires_manual_review := true })) ∨
    (s.needs_additional_papers = true ∧ s.additional_papers_processing = false ∧
      check_communication_routing s =
        ("literature_search", { s with additional_papers_processing := true })) ∨
    (s.needs_deeper_analysis = true ∧ s.deeper_analysis_processing = false ∧
      check_communication_routing s =
        ("analysis", { s with deeper_analysis_processing := true })) ∨
    (s.needs_statistical_summary = true ∧ s.statistical_summary_processing = false ∧
      check_communication_routing s =
        ("data_analysis", { s with statistical_summary_processing := true })) := by
  unfold check_communication_routing
  by_cases h1 : s.needs_additional_papers ∧ ¬ s.additional_papers_processing
  · refine Or.inr (Or.inl ⟨h1.1, by simpa using h1.2, ?_⟩)
    rw [if_pos h1]
  · rw [if_neg h1]
    by_cases h2 : s.needs_deeper_analysis ∧ ¬ s.deeper_analysis_processing
    · refine Or.inr (Or.inr (Or.inl ⟨h2.1, by simpa using h2.2, ?_⟩))
      rw [if_pos h2]
    · rw [if_neg h2]
      by_cases h3 : s.needs_statistical_summary ∧ ¬ s.statistical_summary_processing
      · refine Or.inr (Or.inr (Or.inr ⟨h3.1, by simpa using h3.2, ?_⟩))
        rw [if_pos h3]
      · rw [if_neg h3]
        exact Or.inl (commEscalations_inert s hInv.1 hInv.2)

/-- **C4**: when the literature stage is complete, analysis is not, no
papers were gathered and no communication override applies, the router
returns the terminal route — analysis is never entered. -/
theorem c4_no_papers_routes_end (s : WFState)
    (h1 : "literature_scanner" ∈ s.completed_steps)
    (h2 : "analysis_agent" ∉ s.completed_steps)
    (h3 : s.papers_found = [])
    (hc : (check_communication_routing s).1 = "continue") :
    (route_next_step s).1 = "end" := by
  simp only [route_next_step]
  rw [if_neg (by rw [hc]; simp)]
  simp only [routeMain]
  by_cases herr : s.errors.length > 5
  · rw [if_pos herr]
  · rw [if_neg herr, if_pos ⟨h1, h2⟩, if_pos (by rw [h3]; rfl)]

/-- Witness for C4. -/
theorem c4_no_papers_routes_end_witness :
    ("literature_scanner" ∈
        ({ emptyWF with completed_steps := ["literature_scanner"] } : WFState).completed_steps ∧
     "analysis_agent" ∉
        ({ emptyWF with completed_steps := ["literature_scanner"] } : WFState).completed_steps ∧
     ({ emptyWF with completed_steps := ["literature_scanner"] } : WFState).papers_found = [] ∧
     (check_communication_routing
        { emptyWF with completed_steps := ["literature_scanner"] }).1 = "continue") ∧
    (route_next_step { emptyWF with completed_steps := ["literature_scanner"] }).1 = "end" :=
  ⟨⟨by decide, by decide, by decide, by decide⟩,
   c4_no_papers_routes_end _ (by decide) (by decide) (by decide) (by decide)⟩

/-- **C5**: more than five logged errors force the terminal route (absent a
communication override), and `should_continue` is false for any such state
at any wall-clock time. -/
theorem c5_error_ceiling_terminal (s : WFState) (now : ℚ)
    (herr : s.errors.length > 5)
    (hc : (check_communication_routing s).1 = "continue") :
    (route_next_step s).1 = "end" ∧ (should_continue now s).1 = false := by
  constructor
  · simp only [route_next_step]
    rw [if_neg (by rw [hc]; simp)]
    simp only [routeMain]
    rw [if_pos herr]
  · simp only [should_continue]
    rw [if_pos herr]

/-- Witness for C5 on a state with six errors. -/
theorem c5_error_ceiling_terminal_witness :
    (({ emptyWF with errors := ["a", "b", "c", "d", "e", "f"] } : WFState).errors.length > 5 ∧
     (check_communication_routing
        { emptyWF with errors := ["a", "b", "c", "d", "e", "f"] }).1 = "continue") ∧
    ((route_next_step { emptyWF with errors := ["a", "b", "c", "d", "e", "f"] }).1 = "end" ∧
     (should_continue 0 { emptyWF with errors := ["a", "b", "c", "d", "e", "f"] }).1 = false) :=
  ⟨⟨by decide, by decide⟩,
   c5_error_ceiling_terminal _ 0 (by decide) (by decide)⟩

theorem check_comm_preserves_quality (s : WFState) :
    (check_communication_routing s).2.quality_retry_attempted =
      s.quality_retry_attempted ∧
    (check_communication_routing s).2.quality_assessments = s.quality_assessments := by
  unfold check_communication_routing commEscalations commAssistance
  dsimp only
  repeat' split
  all_goals exact ⟨rfl, rfl⟩

theorem routeMain_quality_retry (completed errors : List String) (papers : List Paper)
    (s : WFState)
    (hq : s.quality_assessments.filter (fun qa => qa.score.getD 1 < mkRat 3 5) = []) :
    (routeMain completed errors papers s).2.quality_retry_attempted =
      s.quality_retry_attempted := by
  unfold routeMain routeQuality routePublicationRetry
  dsimp only
  rw [hq]
  simp only [ne_eq, not_true_eq_false, and_false, false_and, if_false]
  split_ifs <;> rfl

/-- **C10**: entries recorded by the bus's quality-check handler carry the
score under `quality_score` and the agent under `checker`, while the
router's quality branch reads `score` (default 1.0, never below the 0.6
threshold) and `agent`; hence for a state whose assessments all come from
the handler, the low-quality filter is empty and `route_next_step` never
fires the quality-retry branch (its marker is untouched). -/
theorem c10_bus_quality_never_retries (s : WFState)
    (h : ∀ qa ∈ s.quality_assessments,
      ∃ r c t, qa = CommunicationBus.qualityEntry r c t) :
    s.quality_assessments.filter (fun qa => qa.score.getD 1 < mkRat 3 5) = [] ∧
    (route_next_step s).2.quality_retry_attempted = s.quality_retry_attempted := by
  have hq : s.quality_assessments.filter (fun qa => qa.score.getD 1 < mkRat 3 5) = [] := by
    rw [List.filter_eq_nil_iff]
    intro qa hqa
    obtain ⟨r, c, t, rfl⟩ := h qa hqa
    have hscore : (CommunicationBus.qualityEntry r c t).score = none := rfl
    rw [hscore]
    decide
  refine ⟨hq, ?_⟩
  by_cases hcont : (check_communication_routing s).1 = "continue"
  · simp only [route_next_step]
    rw [if_neg (by rw [hcont]; simp)]
    rw [routeMain_quality_retry _ _ _ _ (by
      rw [(check_comm_preserves_quality s).2]
      exact hq)]
    exact (check_comm_preserves_quality s).1
  · simp only [route_next_step]
    rw [if_pos (by simpa using hcont)]
    exact (check_comm_preserves_quality s).1

/-- Witness for C10 on a state holding one bus-recorded assessment. -/
theorem c10_bus_quality_never_retries_witness :
    (∀ qa ∈ ({ emptyWF with quality_assessments :=
        [CommunicationBus.qualityEntry "analysis_agent" "analysis" "txt"] } :
          WFState).quality_assessments,
      ∃ r c t, qa = CommunicationBus.qualityEntry r c t) ∧
    (({ emptyWF with quality_assessments :=
        [CommunicationBus.qualityEntry "analysis_agent" "analysis" "txt"] } :
          WFState).quality_assessments.filter
        (fun qa => qa.score.getD 1 < mkRat 3 5) = [] ∧
     (route_next_step { emptyWF with quality_assessments :=
        [CommunicationBus.qualityEntry "analysis_agent" "analysis" "txt"] }).2.quality_retry_attempted =
       ({ emptyWF with quality_assessments :=
        [CommunicationBus.qualityEntry "analysis_agent" "analysis" "txt"] } :
          WFState).quality_retry_attempted) :=
  ⟨fun qa hqa => ⟨"analysis_agent", "analysis", "txt", by simpa using hqa⟩,
   c10_bus_quality_never_retries _
     (fun qa hqa => ⟨"analysis_agent", "analysis", "txt", by simpa using hqa⟩)⟩

/-! ## Measure lemmas for the termination claim -/

theorem flagCost_true : flagCost true = 0 := rfl

theorem flagCost_false : flagCost false = 1 := rfl

theorem flagCost_le_one (b : Bool) : flagCost b ≤ 1 := by cases b <;> simp [flagCost]

theorem flagCost_eq_zero (b : Bool) (h : flagCost b = 0) : b = true := by
  cases b
  · simp [flagCost] at h
  · rfl

theorem memCost_le_one (x : String) (c : List String) : memCost x c ≤ 1 := by
  unfold memCost
  split_ifs <;> omega

theorem memCost_eq_zero (x : String) (c : List String) (h : memCost x c = 0) : x ∈ c := by
  by_cases hx : x ∈ c
  · exact hx
  · simp [memCost, hx] at h

theorem memCost_append_le (x id : String) (c : List String) :
    memCost x (c ++ [id]) ≤ memCost x c := by
  by_cases hx : x ∈ c
  · simp [memCost, hx, List.mem_append]
  · by_cases hxi : x = id <;> simp [memCost, hx, hxi, List.mem_append]

theorem memCost_congr (x : String) (c1 c2 : List String) (h : x ∈ c1 ↔ x ∈ c2) :
    memCost x c1 = memCost x c2 := by
  by_cases hx : x ∈ c1
  · simp [memCost, hx, h.mp hx]
  · have hx2 : x ∉ c2 := fun h2 => hx (h.mpr h2)
    simp [memCost, hx, hx2]

theorem routeMeasure_le_12 (s : WFState) : routeMeasure s ≤ 12 := by
  have f1 := flagCost_le_one s.literature_retry_attempted
  have f2 := flagCost_le_one s.gap_enhancement_attempted
  have f3 := flagCost_le_one s.quality_retry_attempted
  have f4 := flagCost_le_one s.publication_retry_attempted
  have f5 := flagCost_le_one s.additional_papers_processing
  have f6 := flagCost_le_one s.deeper_analysis_processing
  have f7 := flagCost_le_one s.statistical_summary_processing
  have m1 := memCost_le_one "literature_scanner" s.completed_steps
  have m2 := memCost_le_one "analysis_agent" s.completed_steps
  have m3 := memCost_le_one "data_analyzer" s.completed_steps
  have m4 := memCost_le_one "hypothesis_generator" s.completed_steps
  have m5 := memCost_le_one "publication_assistant" s.completed_steps
  unfold routeMeasure markerCount stagesLeft
  omega

theorem routeMeasure_rmr (s : WFState) :
    routeMeasure { s with requires_manual_review := true } = routeMeasure s := rfl

theorem markerCount_execStage (r : String) (s : WFState) :
    markerCount (execStage r s) = markerCount s := by
  unfold execStage
  rcases hid : stageIdOf r with _ | id
  · rfl
  · dsimp only
    split_ifs <;> rfl

theorem stagesLeft_execStage_le (r : String) (s : WFState) :
    stagesLeft (execStage r s) ≤ stagesLeft s := by
  unfold execStage
  rcases hid : stageIdOf r with _ | id
  · exact le_refl _
  · dsimp only
    split_ifs with hmem
    · exact le_refl _
    · have l1 := memCost_append_le "literature_scanner" id s.completed_steps
      have l2 := memCost_append_le "analysis_agent" id s.completed_steps
      have l3 := memCost_append_le "data_analyzer" id s.completed_steps
      have l4 := memCost_append_le "hypothesis_generator" id s.completed_steps
      have l5 := memCost_append_le "publication_assistant" id s.completed_steps
      unfold stagesLeft
      dsimp only
      omega

theorem execStage_measure_lt (r id : String) (s : WFState)
    (hid : stageIdOf r = some id) (hcore : id ∈ coreStageIds)
    (hmem : id ∉ s.completed_steps) :
    routeMeasure (execStage r s) < routeMeasure s := by
  have hm := markerCount_execStage r s
  have hs : stagesLeft (execStage r s) < stagesLeft s := by
    unfold execStage
    rw [hid]
    dsimp only
    rw [if_neg hmem]
    have hz : memCost id (s.completed_steps ++ [id]) = 0 := by
      simp [memCost, List.mem_append]
    have ho : memCost id s.completed_steps = 1 := by simp [memCost, hmem]
    have l1 := memCost_append_le "literature_scanner" id s.completed_steps
    have l2 := memCost_append_le "analysis_agent" id s.completed_steps
    have l3 := memCost_append_le "data_analyzer" id s.completed_steps
    have l4 := memCost_append_le "hypothesis_generator" id s.completed_steps
    have l5 := memCost_append_le "publication_assistant" id s.completed_steps
    unfold stagesLeft
    dsimp only
    rcases (show id = "literature_scanner" ∨ id = "analysis_agent" ∨ id = "data_analyzer" ∨
        id = "hypothesis_generator" ∨ id = "publication_assistant" by
      simpa [coreStageIds] using hcore) with rfl | rfl | rfl | rfl | rfl <;> omega
  unfold routeMeasure
  omega

theorem execStage_mem_self (r id : String) (s : WFState) (hid : stageIdOf r = some id) :
    id ∈ (execStage r s).completed_steps := by
  unfold execStage
  rw [hid]
  dsimp only
  split_ifs with hmem
  · exact hmem
  · simp [List.mem_append]

theorem execStage_mem_other (r id x : String) (s : WFState)
    (hid : stageIdOf r = some id) (hx : x ≠ id) :
    (x ∈ (execStage r s).completed_steps ↔ x ∈ s.completed_steps) := by
  unfold execStage
  rw [hid]
  dsimp only
  split_ifs with hmem
  · exact Iff.rfl
  · simp [List.mem_append, hx]

/-- Exhaustive description of the sequential router chain `routeMain`: it
returns the terminal route, advances to an incomplete canonical stage, or
fires one of the marker-guarded re-entry branches setting its marker. -/
theorem routeMain_spec (c e : List String) (p : List Paper) (s : WFState) :
    ((routeMain c e p s).1 = "end" ∧
      ((routeMain c e p s).2 = s ∨
       (routeMain c e p s).2 = { s with quality_retry_attempted := true })) ∨
    ("analysis_agent" ∉ c ∧ routeMain c e p s = ("analysis", s)) ∨
    ("data_analyzer" ∉ c ∧ routeMain c e p s = ("data_analysis", s)) ∨
    ("hypothesis_generator" ∉ c ∧ routeMain c e p s = ("hypothesis_generation", s)) ∨
    ("publication_assistant" ∉ c ∧ routeMain c e p s = ("publication", s)) ∨
    (s.literature_retry_attempted = false ∧
      routeMain c e p s = ("literature_search",
        { s with literature_retry_attempted := true })) ∨
    (s.gap_enhancement_attempted = false ∧
      routeMain c e p s = ("analysis",
        { s with needs_deeper_analysis := true,
                 analysis_focus_areas := some ["research_gaps", "methodological_limitations"],
                 gap_enhancement_attempted := true })) ∨
    (s.quality_retry_attempted = false ∧
      routeMain c e p s = ("analysis",
        { s with quality_retry_attempted := true, needs_deeper_analysis := true })) ∨
    (s.quality_retry_attempted = false ∧
      routeMain c e p s = ("data_analysis", { s with quality_retry_attempted := true })) ∨
    ("publication_assistant" ∈ c ∧ s.publication_retry_attempted = false ∧
      routeMain c e p s = ("publication",
        { s with publication_retry_attempted := true,
                 completed_steps := c.erase "publication_assistant" })) ∨
    ("publication_assistant" ∈ c ∧ s.quality_retry_attempted = false ∧
      s.publication_retry_attempted = false ∧
      routeMain c e p s = ("publication",
        { s with quality_retry_attempted := true, publication_retry_attempted := true,
                 completed_steps := c.erase "publication_assistant" })) := by
  by_cases h0 : e.length > 5
  · have heq : routeMain c e p s = ("end", s) := by unfold routeMain; rw [if_pos h0]
    exact Or.inl ⟨by rw [heq], Or.inl (by rw [heq])⟩
  by_cases h1 : "literature_scanner" ∈ c ∧ "analysis_agent" ∉ c
  · by_cases h1b : p.length = 0
    · have heq : routeMain c e p s = ("end", s) := by
        unfold routeMain; rw [if_neg h0, if_pos h1, if_pos h1b]
      exact Or.inl ⟨by rw [heq], Or.inl (by rw [heq])⟩
    · refine Or.inr (Or.inl ⟨h1.2, ?_⟩)
      unfold routeMain
      rw [if_neg h0, if_pos h1, if_neg h1b]
  by_cases h2 : "analysis_agent" ∈ c ∧ "data_analyzer" ∉ c
  · refine Or.inr (Or.inr (Or.inl ⟨h2.2, ?_⟩))
    unfold routeMain
    rw [if_neg h0, if_neg h1, if_pos h2]
  by_cases h3 : "data_analyzer" ∈ c ∧
      ¬ ("hypothesis_generator" ∈ c ∨ "synthesis_agent" ∈ c)
  · refine Or.inr (Or.inr (Or.inr (Or.inl ⟨fun hm => h3.2 (Or.inl hm), ?_⟩)))
    unfold routeMain
    rw [if_neg h0, if_neg h1, if_neg h2, if_pos h3]
  by_cases h4 : ("hypothesis_generator" ∈ c ∨ "synthesis_agent" ∈ c) ∧
      "publication_assistant" ∉ c
  · refine Or.inr (Or.inr (Or.inr (Or.inr (Or.inl ⟨h4.2, ?_⟩))))
    unfold routeMain
    rw [if_neg h0, if_neg h1, if_neg h2, if_neg h3, if_pos h4]
  by_cases h5 : p.length < 3 ∧ "literature_retry" ∉ c ∧ c.length < 2 ∧
      ¬ s.literature_retry_attempted
  · refine Or.inr (Or.inr (Or.inr (Or.inr (Or.inr (Or.inl
      ⟨by simpa using h5.2.2.2, ?_⟩)))))
    unfold routeMain
    rw [if_neg h0, if_neg h1, if_neg h2, if_neg h3, if_neg h4, if_pos h5]
  by_cases h6 : (s.research_gaps.getD []).length < 2 ∧ "gap_enhancement" ∉ c ∧
      "analysis_agent" ∈ c ∧ ¬ s.gap_enhancement_attempted
  · refine Or.inr (Or.inr (Or.inr (Or.inr (Or.inr (Or.inr (Or.inl
      ⟨by simpa using h6.2.2.2, ?_⟩))))))
    unfold routeMain
    rw [if_neg h0, if_neg h1, if_neg h2, if_neg h3, if_neg h4, if_neg h5, if_pos h6]
  -- fall through to the quality branch
  have hbase : routeMain c e p s = routeQuality c s := by
    unfold routeMain
    rw [if_neg h0, if_neg h1, if_neg h2, if_neg h3, if_neg h4, if_neg h5, if_neg h6]
  by_cases hq : s.quality_assessments ≠ [] ∧
      s.quality_assessments.filter (fun qa => qa.score.getD 1 < mkRat 3 5) ≠ [] ∧
      ¬ s.quality_retry_attempted
  · cases hlq : s.quality_assessments.filter (fun qa => qa.score.getD 1 < mkRat 3 5) with
    | nil => exact absurd hlq hq.2.1
    | cons qa rest =>
      have hqfalse : s.quality_retry_attempted = false := by simpa using hq.2.2
      by_cases hqa : strContains (strToLower (qa.agent.getD "unknown")) "analysis" ∧
          "analysis_agent" ∈ c
      · refine Or.inr (Or.inr (Or.inr (Or.inr (Or.inr (Or.inr (Or.inr (Or.inl
          ⟨hqfalse, ?_⟩)))))))
        rw [hbase]
        unfold routeQuality
        dsimp only
        rw [hlq]
        rw [if_pos ⟨hq.1, by simp, hq.2.2⟩]
        dsimp only
        rw [if_pos hqa]
      · by_cases hqd : strContains (strToLower (qa.agent.getD "unknown")) "data" ∧
            "data_analyzer" ∈ c
        · refine Or.inr (Or.inr (Or.inr (Or.inr (Or.inr (Or.inr (Or.inr (Or.inr (Or.inl
            ⟨hqfalse, ?_⟩))))))))
          rw [hbase]
          unfold routeQuality
          dsimp only
          rw [hlq]
          rw [if_pos ⟨hq.1, by simp, hq.2.2⟩]
          dsimp only
          rw [if_neg hqa, if_pos hqd]
        · -- quality marker set, fall through to the publication branch
          have hq2 : routeMain c e p s =
              routePublicationRetry c { s with quality_retry_attempted := true } := by
            rw [hbase]
            unfold routeQuality
            dsimp only
            rw [hlq]
            rw [if_pos ⟨hq.1, by simp, hq.2.2⟩]
            dsimp only
            rw [if_neg hqa, if_neg hqd]
          by_cases h8 : "publication_assistant" ∈ c
          · by_cases h8i : ¬ (s.executive_summary.getD "" ≠ "") ∧
                ¬ s.publication_retry_attempted
            · refine Or.inr (Or.inr (Or.inr (Or.inr (Or.inr (Or.inr (Or.inr (Or.inr
                (Or.inr (Or.inr ⟨h8, hqfalse, by simpa using h8i.2, ?_⟩)))))))))
              rw [hq2]
              unfold routePublicationRetry
              rw [if_pos h8]
              dsimp only
              rw [if_pos h8i]
            · have heq : routeMain c e p s =
                  ("end", { s with quality_retry_attempted := true }) := by
                rw [hq2]
                unfold routePublicationRetry
                rw [if_pos h8]
                dsimp only
                rw [if_neg h8i]
              exact Or.inl ⟨by rw [heq], Or.inr (by rw [heq])⟩
          · have heq : routeMain c e p s =
                ("end", { s with quality_retry_attempted := true }) := by
              rw [hq2]
              unfold routePublicationRetry
              rw [if_neg h8]
            exact Or.inl ⟨by rw [heq], Or.inr (by rw [heq])⟩
  · -- quality branch skipped entirely
    have hq2 : routeMain c e p s = routePublicationRetry c s := by
      rw [hbase]
      unfold routeQuality
      dsimp only
      rw [if_neg hq]
    by_cases h8 : "publication_assistant" ∈ c
    · by_cases h8i : ¬ (s.executive_summary.getD "" ≠ "") ∧
          ¬ s.publication_retry_attempted
      · refine Or.inr (Or.inr (Or.inr (Or.inr (Or.inr (Or.inr (Or.inr (Or.inr
          (Or.inr (Or.inl ⟨h8, by simpa using h8i.2, ?_⟩)))))))))
        rw [hq2]
        unfold routePublicationRetry
        rw [if_pos h8, if_pos h8i]
      · have heq : routeMain c e p s = ("end", s) := by
          rw [hq2]
          unfold routePublicationRetry
          rw [if_pos h8, if_neg h8i]
        exact Or.inl ⟨by rw [heq], Or.inl (by rw [heq])⟩
    · have heq : routeMain c e p s = ("end", s) := by
        rw [hq2]
        unfold routePublicationRetry
        rw [if_neg h8]
      exact Or.inl ⟨by rw [heq], Or.inl (by rw [heq])⟩

theorem routeMain_preserves_comm_fields (c e : List String) (p : List Paper) (s : WFState) :
    (routeMain c e p s).2.escalations = s.escalations ∧
    (routeMain c e p s).2.assistance_requests = s.assistance_requests := by
  rcases routeMain_spec c e p s with
    ⟨_, heq | heq⟩ | ⟨_, heq⟩ | ⟨_, heq⟩ | ⟨_, heq⟩ | ⟨_, heq⟩ | ⟨_, heq⟩ | ⟨_, heq⟩ |
    ⟨_, heq⟩ | ⟨_, heq⟩ | ⟨_, _, heq⟩ | ⟨_, _, _, heq⟩ <;>
    rw [heq] <;> exact ⟨rfl, rfl⟩

theorem execStage_comm_fields (r : String) (s : WFState) :
    (execStage r s).escalations = s.escalations ∧
    (execStage r s).assistance_requests = s.assistance_requests := by
  unfold execStage
  rcases hid : stageIdOf r with _ | id
  · exact ⟨rfl, rfl⟩
  · dsimp only
    split_ifs <;> exact ⟨rfl, rfl⟩

/-- A non-terminal decision of the sequential chain strictly decreases the
termination measure once the chosen stage has executed. -/
theorem routeMain_decrease (e : List String) (p : List Paper) (s : WFState)
    (hr : (routeMain s.completed_steps e p s).1 ≠ "end") :
    routeMeasure (execStage (routeMain s.completed_steps e p s).1
      (routeMain s.completed_steps e p s).2) < routeMeasure s := by
  rcases routeMain_spec s.completed_steps e p s with
    ⟨hcase, _⟩ | ⟨hm, heq⟩ | ⟨hm, heq⟩ | ⟨hm, heq⟩ | ⟨hm, heq⟩ | ⟨hf, heq⟩ | ⟨hf, heq⟩ |
    ⟨hf, heq⟩ | ⟨hf, heq⟩ | ⟨hm, hf, heq⟩ | ⟨hm, hf1, hf2, heq⟩
  · exact absurd hcase hr
  · rw [heq]
    exact execStage_measure_lt "analysis" "analysis_agent" s (by decide) (by decide) hm
  · rw [heq]
    exact execStage_measure_lt "data_analysis" "data_analyzer" s (by decide) (by decide) hm
  · rw [heq]
    exact execStage_measure_lt "hypothesis_generation" "hypothesis_generator" s
      (by decide) (by decide) hm
  · rw [heq]
    exact execStage_measure_lt "publication" "publication_assistant" s
      (by decide) (by decide) hm
  · rw [heq]
    dsimp only
    have hm1 := markerCount_execStage "literature_search"
      { s with literature_retry_attempted := true }
    have hs1 := stagesLeft_execStage_le "literature_search"
      { s with literature_retry_attempted := true }
    have hmark : markerCount { s with literature_retry_attempted := true } + 1 =
        markerCount s := by
      unfold markerCount
      dsimp only
      simp only [hf, flagCost_true, flagCost_false]
      omega
    have hstage : stagesLeft { s with literature_retry_attempted := true } =
        stagesLeft s := rfl
    unfold routeMeasure
    omega
  · rw [heq]
    dsimp only
    have hm1 := markerCount_execStage "analysis"
      { s with needs_deeper_analysis := true,
               analysis_focus_areas := some ["research_gaps", "methodological_limitations"],
               gap_enhancement_attempted := true }
    have hs1 := stagesLeft_execStage_le "analysis"
      { s with needs_deeper_analysis := true,
               analysis_focus_areas := some ["research_gaps", "methodological_limitations"],
               gap_enhancement_attempted := true }
    have hmark : markerCount
        { s with needs_deeper_analysis := true,
                 analysis_focus_areas := some ["research_gaps", "methodological_limitations"],
                 gap_enhancement_attempted := true } + 1 = markerCount s := by
      unfold markerCount
      dsimp only
      simp only [hf, flagCost_true, flagCost_false]
      omega
    have hstage : stagesLeft
        { s with needs_deeper_analysis := true,
                 analysis_focus_areas := some ["research_gaps", "methodological_limitations"],
                 gap_enhancement_attempted := true } = stagesLeft s := rfl
    unfold routeMeasure
    omega
  · rw [heq]
    dsimp only
    have hm1 := markerCount_execStage "analysis"
      { s with quality_retry_attempted := true, needs_deeper_analysis := true }
    have hs1 := stagesLeft_execStage_le "analysis"
      { s with quality_retry_attempted := true, needs_deeper_analysis := true }
    have hmark : markerCount
        { s with quality_retry_attempted := true, needs_deeper_analysis := true } + 1 =
        markerCount s := by
      unfold markerCount
      dsimp only
      simp only [hf, flagCost_true, flagCost_false]
      omega
    have hstage : stagesLeft
        { s with quality_retry_attempted := true, needs_deeper_analysis := true } =
        stagesLeft s := rfl
    unfold routeMeasure
    omega
  · rw [heq]
    dsimp only
    have hm1 := markerCount_execStage "data_analysis"
      { s with quality_retry_attempted := true }
    have hs1 := stagesLeft_execStage_le "data_analysis"
      { s with quality_retry_attempted := true }
    have hmark : markerCount { s with quality_retry_attempted := true } + 1 =
        markerCount s := by
      unfold markerCount
      dsimp only
      simp only [hf, flagCost_true, flagCost_false]
      omega
    have hstage : stagesLeft { s with quality_retry_attempted := true } =
        stagesLeft s := rfl
    unfold routeMeasure
    omega
  · rw [heq]
    dsimp only
    have hpubfin : "publication_assistant" ∈ (execStage "publication"
        { s with publication_retry_attempted := true,
                 completed_steps := s.completed_steps.erase "publication_assistant" }).completed_steps :=
      execStage_mem_self _ _ _ (by decide)
    have hother : ∀ x, x ≠ "publication_assistant" →
        (x ∈ (execStage "publication"
          { s with publication_retry_attempted := true,
                   completed_steps := s.completed_steps.erase "publication_assistant" }).completed_steps ↔
         x ∈ s.completed_steps) := by
      intro x hx
      rw [execStage_mem_other _ "publication_assistant" x _ (by decide) hx]
      exact List.mem_erase_of_ne hx
    have hsl : stagesLeft (execStage "publication"
        { s with publication_retry_attempted := true,
                 completed_steps := s.completed_steps.erase "publication_assistant" }) ≤
        stagesLeft s := by
      have e1 := memCost_congr "literature_scanner" _ _ (hother _ (by decide))
      have e2 := memCost_congr "analysis_agent" _ _ (hother _ (by decide))
      have e3 := memCost_congr "data_analyzer" _ _ (hother _ (by decide))
      have e4 := memCost_congr "hypothesis_generator" _ _ (hother _ (by decide))
      have e5 : memCost "publication_assistant" (execStage "publication"
          { s with publication_retry_attempted := true,
                   completed_steps := s.completed_steps.erase "publication_assistant" }).completed_steps = 0 := by
        simp [memCost, hpubfin]
      unfold stagesLeft
      have e6 := memCost_le_one "publication_assistant" s.completed_steps
      omega
    have hm1 := markerCount_execStage "publication"
      { s with publication_retry_attempted := true,
               completed_steps := s.completed_steps.erase "publication_assistant" }
    have hmark : markerCount
        { s with publication_retry_attempted := true,
                 completed_steps := s.completed_steps.erase "publication_assistant" } + 1 =
        markerCount s := by
      unfold markerCount
      dsimp only
      simp only [hf, flagCost_true, flagCost_false]
      omega
    unfold routeMeasure
    omega
  · rw [heq]
    dsimp only
    have hpubfin : "publication_assistant" ∈ (execStage "publication"
        { s with quality_retry_attempted := true, publication_retry_attempted := true,
                 completed_steps := s.completed_steps.erase "publication_assistant" }).completed_steps :=
      execStage_mem_self _ _ _ (by decide)
    have hother : ∀ x, x ≠ "publication_assistant" →
        (x ∈ (execStage "publication"
          { s with quality_retry_attempted := true, publication_retry_attempted := true,
                   completed_steps := s.completed_steps.erase "publication_assistant" }).completed_steps ↔
         x ∈ s.completed_steps) := by
      intro x hx
      rw [execStage_mem_other _ "publication_assistant" x _ (by decide) hx]
      exact List.mem_erase_of_ne hx
    have hsl : stagesLeft (execStage "publication"
        { s with quality_retry_attempted := true, publication_retry_attempted := true,
                 completed_steps := s.completed_steps.erase "publication_assistant" }) ≤
        stagesLeft s := by
      have e1 := memCost_congr "literature_scanner" _ _ (hother _ (by decide))
      have e2 := memCost_congr "analysis_agent" _ _ (hother _ (by decide))
      have e3 := memCost_congr "data_analyzer" _ _ (hother _ (by decide))
      have e4 := memCost_congr "hypothesis_generator" _ _ (hother _ (by decide))
      have e5 : memCost "publication_assistant" (execStage "publication"
          { s with quality_retry_attempted := true, publication_retry_attempted := true,
                   completed_steps := s.completed_steps.erase "publication_assistant" }).completed_steps = 0 := by
        simp [memCost, hpubfin]
      unfold stagesLeft
      have e6 := memCost_le_one "publication_assistant" s.completed_steps
      omega
    have hm1 := markerCount_execStage "publication"
      { s with quality_retry_attempted := true, publication_retry_attempted := true,
               completed_steps := s.completed_steps.erase "publication_assistant" }
    have hmark : markerCount
        { s with quality_retry_attempted := true, publication_retry_attempted := true,
                 completed_steps := s.completed_steps.erase "publication_assistant" } + 2 =
        markerCount s := by
      unfold markerCount
      dsimp only
      simp only [hf1, hf2, flagCost_true, flagCost_false]
      omega
    unfold routeMeasure
    omega

theorem measure_zero_facts (s : WFState) (h : routeMeasure s = 0) :
    s.literature_retry_attempted = true ∧ s.gap_enhancement_attempted = true ∧
    s.quality_retry_attempted = true ∧ s.publication_retry_attempted = true ∧
    s.additional_papers_processing = true ∧ s.deeper_analysis_processing = true ∧
    s.statistical_summary_processing = true ∧
    "literature_scanner" ∈ s.completed_steps ∧ "analysis_agent" ∈ s.completed_steps ∧
    "data_analyzer" ∈ s.completed_steps ∧ "hypothesis_generator" ∈ s.completed_steps ∧
    "publication_assistant" ∈ s.completed_steps := by
  unfold routeMeasure markerCount stagesLeft at h
  refine ⟨flagCost_eq_zero _ (by omega), flagCost_eq_zero _ (by omega),
    flagCost_eq_zero _ (by omega), flagCost_eq_zero _ (by omega),
    flagCost_eq_zero _ (by omega), flagCost_eq_zero _ (by omega),
    flagCost_eq_zero _ (by omega),
    memCost_eq_zero _ _ (by omega), memCost_eq_zero _ _ (by omega),
    memCost_eq_zero _ _ (by omega), memCost_eq_zero _ _ (by omega),
    memCost_eq_zero _ _ (by omega)⟩

/-- With every re-entry marker set and every canonical stage completed, the
sequential chain falls through to the terminal route. -/
theorem routeMain_end_of_flags (e : List String) (p : List Paper) (s : WFState)
    (m2 : "analysis_agent" ∈ s.completed_steps)
    (m3 : "data_analyzer" ∈ s.completed_steps)
    (m4 : "hypothesis_generator" ∈ s.completed_steps)
    (m5 : "publication_assistant" ∈ s.completed_steps)
    (f1 : s.literature_retry_attempted = true)
    (f2 : s.gap_enhancement_attempted = true)
    (f3 : s.quality_retry_attempted = true)
    (f4 : s.publication_retry_attempted = true) :
    (routeMain s.completed_steps e p s).1 = "end" := by
  by_cases h0 : e.length > 5
  · unfold routeMain
    rw [if_pos h0]
  · unfold routeMain routeQuality routePublicationRetry
    dsimp only
    rw [if_neg h0,
      if_neg (fun hx => hx.2 m2),
      if_neg (fun hx => hx.2 m3),
      if_neg (fun hx => hx.2 (Or.inl m4)),
      if_neg (fun hx => hx.2 m5),
      if_neg (fun hx => hx.2.2.2 f1),
      if_neg (fun hx => hx.2.2.2 f2),
      if_neg (fun hx => hx.2.2 f3),
      if_pos m5,
      if_neg (fun hx => hx.2 f4)]

theorem route_next_step_end_of_measure_zero (s : WFState) (hInv : RouterInv s)
    (h0 : routeMeasure s = 0) : (route_next_step s).1 = "end" := by
  obtain ⟨f1, f2, f3, f4, f5, f6, f7, m1, m2, m3, m4, m5⟩ := measure_zero_facts s h0
  rcases check_comm_cases s hInv with (hc | hc) | ⟨_, hna, _⟩ | ⟨_, hnd, _⟩ | ⟨_, hns, _⟩
  · simp only [route_next_step]
    rw [hc]
    rw [if_neg (by simp)]
    exact routeMain_end_of_flags s.errors s.papers_found s m2 m3 m4 m5 f1 f2 f3 f4
  · simp only [route_next_step]
    rw [hc]
    rw [if_neg (by simp)]
    exact routeMain_end_of_flags s.errors s.papers_found
      { s with requires_manual_review := true } m2 m3 m4 m5 f1 f2 f3 f4
  · rw [f5] at hna
    exact Bool.noConfusion hna
  · rw [f6] at hnd
    exact Bool.noConfusion hnd
  · rw [f7] at hns
    exact Bool.noConfusion hns

/-- One engine iteration under `RouterInv` with a non-terminal decision
strictly decreases the measure. -/
theorem stepOnce_decrease (s : WFState) (hInv : RouterInv s)
    (hr : (route_next_step s).1 ≠ "end") :
    routeMeasure (stepOnce s) < routeMeasure s := by
  rcases check_comm_cases s hInv with (hc | hc) | ⟨hna, hnap, hc⟩ | ⟨hnd, hndp, hc⟩ |
    ⟨hns, hnsp, hc⟩
  · have hroute : route_next_step s =
        routeMain s.completed_steps s.errors s.papers_found s := by
      simp only [route_next_step]
      rw [hc]
      rw [if_neg (by simp)]
    rw [hroute] at hr
    unfold stepOnce
    rw [hroute]
    dsimp only
    rw [if_neg hr]
    exact routeMain_decrease s.errors s.papers_found s hr
  · have hroute : route_next_step s =
        routeMain s.completed_steps s.errors s.papers_found
          { s with requires_manual_review := true } := by
      simp only [route_next_step]
      rw [hc]
      rw [if_neg (by simp)]
    rw [hroute] at hr
    unfold stepOnce
    rw [hroute]
    dsimp only
    rw [if_neg hr]
    have := routeMain_decrease s.errors s.papers_found
      { s with requires_manual_review := true } hr
    rwa [routeMeasure_rmr] at this
  · have hroute : route_next_step s =
        ("literature_search", { s with additional_papers_processing := true }) := by
      simp only [route_next_step]
      rw [hc]
      rw [if_pos (by simp)]
    unfold stepOnce
    rw [hroute]
    dsimp only
    rw [if_neg (by decide)]
    have hm1 := markerCount_execStage "literature_search"
      { s with additional_papers_processing := true }
    have hs1 := stagesLeft_execStage_le "literature_search"
      { s with additional_papers_processing := true }
    have hmark : markerCount { s with additional_papers_processing := true } + 1 =
        markerCount s := by
      unfold markerCount
      dsimp only
      simp only [hnap, flagCost_true, flagCost_false]
      omega
    have hstage : stagesLeft { s with additional_papers_processing := true } =
        stagesLeft s := rfl
    unfold routeMeasure
    omega
  · have hroute : route_next_step s =
        ("analysis", { s with deeper_analysis_processing := true }) := by
      simp only [route_next_step]
      rw [hc]
      rw [if_pos (by simp)]
    unfold stepOnce
    rw [hroute]
    dsimp only
    rw [if_neg (by decide)]
    have hm1 := markerCount_execStage "analysis"
      { s with deeper_analysis_processing := true }
    have hs1 := stagesLeft_execStage_le "analysis"
      { s with deeper_analysis_processing := true }
    have hmark : markerCount { s with deeper_analysis_processing := true } + 1 =
        markerCount s := by
      unfold markerCount
      dsimp only
      simp only [hndp, flagCost_true, flagCost_false]
      omega
    have hstage : stagesLeft { s with deeper_analysis_processing := true } =
        stagesLeft s := rfl
    unfold routeMeasure
    omega
  · have hroute : route_next_step s =
        ("data_analysis", { s with statistical_summary_processing := true }) := by
      simp only [route_next_step]
      rw [hc]
      rw [if_pos (by simp)]
    unfold stepOnce
    rw [hroute]
    dsimp only
    rw [if_neg (by decide)]
    have hm1 := markerCount_execStage "data_analysis"
      { s with statistical_summary_processing := true }
    have hs1 := stagesLeft_execStage_le "data_analysis"
      { s with statistical_summary_processing := true }
    have hmark : markerCount { s with statistical_summary_processing := true } + 1 =
        markerCount s := by
      unfold markerCount
      dsimp only
      simp only [hnsp, flagCost_true, flagCost_false]
    have hstage : stagesLeft { s with statistical_summary_processing := true } =
        stagesLeft s := rfl
    unfold routeMeasure
    omega

theorem stepOnce_inv (s : WFState) (hInv : RouterInv s) : RouterInv (stepOnce s) := by
  have hfields : (stepOnce s).escalations = s.escalations ∧
      (stepOnce s).assistance_requests = s.assistance_requests := by
    rcases check_comm_cases s hInv with (hc | hc) | ⟨_, _, hc⟩ | ⟨_, _, hc⟩ | ⟨_, _, hc⟩
    · have hroute : route_next_step s =
          routeMain s.completed_steps s.errors s.papers_found s := by
        simp only [route_next_step]
        rw [hc]
        rw [if_neg (by simp)]
      unfold stepOnce
      rw [hroute]
      dsimp only
      split_ifs
      · exact routeMain_preserves_comm_fields _ _ _ _
      · obtain ⟨ha, hb⟩ := execStage_comm_fields
          (routeMain s.completed_steps s.errors s.papers_found s).1
          (routeMain s.completed_steps s.errors s.papers_found s).2
        obtain ⟨hc2, hd⟩ := routeMain_preserves_comm_fields s.completed_steps
          s.errors s.papers_found s
        exact ⟨ha.trans hc2, hb.trans hd⟩
    · have hroute : route_next_step s =
          routeMain s.completed_steps s.errors s.papers_found
            { s with requires_manual_review := true } := by
        simp only [route_next_step]
        rw [hc]
        rw [if_neg (by simp)]
      unfold stepOnce
      rw [hroute]
      dsimp only
      split_ifs
      · exact routeMain_preserves_comm_fields _ _ _ _
      · obtain ⟨ha, hb⟩ := execStage_comm_fields
          (routeMain s.completed_steps s.errors s.papers_found
            { s with requires_manual_review := true }).1
          (routeMain s.completed_steps s.errors s.papers_found
            { s with requires_manual_review := true }).2
        obtain ⟨hc2, hd⟩ := routeMain_preserves_comm_fields s.completed_steps
          s.errors s.papers_found { s with requires_manual_review := true }
        exact ⟨ha.trans hc2, hb.trans hd⟩
    · have hroute : route_next_step s =
          ("literature_search", { s with additional_papers_processing := true }) := by
        simp only [route_next_step]
        rw [hc]
        rw [if_pos (by simp)]
      unfold stepOnce
      rw [hroute]
      dsimp only
      rw [if_neg (by decide)]
      exact execStage_comm_fields "literature_search"
        { s with additional_papers_processing := true }
    · have hroute : route_next_step s =
          ("analysis", { s with deeper_analysis_processing := true }) := by
        simp only [route_next_step]
        rw [hc]
        rw [if_pos (by simp)]
      unfold stepOnce
      rw [hroute]
      dsimp only
      rw [if_neg (by decide)]
      exact execStage_comm_fields "analysis"
        { s with deeper_analysis_processing := true }
    · have hroute : route_next_step s =
          ("data_analysis", { s with statistical_summary_processing := true }) := by
        simp only [route_next_step]
        rw [hc]
        rw [if_pos (by simp)]
      unfold stepOnce
      rw [hroute]
      dsimp only
      rw [if_neg (by decide)]
      exact execStage_comm_fields "data_analysis"
        { s with statistical_summary_processing := true }
  constructor
  · intro e he
    rw [hfields.1] at he
    exact hInv.1 e he
  · intro r hr
    rw [hfields.2] at hr
    exact hInv.2 r hr

theorem stepOnce_reaches_end :
    ∀ (n : Nat) (s : WFState), RouterInv s → routeMeasure s ≤ n →
    ∃ k ≤ n, (route_next_step (stepOnce^[k] s)).1 = "end" := by
  intro n
  induction n with
  | zero =>
    intro s hInv hle
    refine ⟨0, le_refl 0, ?_⟩
    simp only [Function.iterate_zero, id]
    exact route_next_step_end_of_measure_zero s hInv (by omega)
  | succ n ih =>
    intro s hInv hle
    by_cases hend : (route_next_step s).1 = "end"
    · exact ⟨0, Nat.zero_le _, by simpa using hend⟩
    · have hdec := stepOnce_decrease s hInv hend
      obtain ⟨k, hk, hkend⟩ := ih (stepOnce s) (stepOnce_inv s hInv) (by omega)
      refine ⟨k + 1, by omega, ?_⟩
      rw [Function.iterate_succ_apply]
      exact hkend

/-- **C3** (counterexample): starting from a state with one high-complexity
escalation whose reason names literature, the router routes to
`literature_search` on every iteration without setting any once-per-run
marker, so the terminal route is not reached within the claimed
5 + 7 = 12 iterations (nor ever). -/
theorem c3_counterexample_escalation_loop :
    ((List.range 13).all
      (fun k => (route_next_step (stepOnce^[k] escLoopState)).1 != "end")) = true := by
  decide

/-- **C3** (amended): for every starting state with no routable
high-complexity escalation and no unprocessed assistance request (the two
marker-free routing paths), iterating route-then-execute reaches the
terminal route within (number of stages) + (number of marker-guarded
re-entry reasons) = 5 + 7 = 12 iterations: each re-entry path fires at
most once because the router sets its attempted/processing marker as part
of the decision. -/
theorem c3_amended_termination_bound (s : WFState) (hInv : RouterInv s) :
    ∃ k ≤ 12, (route_next_step (stepOnce^[k] s)).1 = "end" :=
  stepOnce_reaches_end 12 s hInv (routeMeasure_le_12 s)

/-- Witness for the amended C3 at the empty starting state. -/
theorem c3_amended_termination_bound_witness :
    RouterInv emptyWF ∧ ∃ k ≤ 12, (route_next_step (stepOnce^[k] emptyWF)).1 = "end" :=
  ⟨⟨fun e he => absurd he (List.not_mem_nil e),
    fun r hr => absurd hr (List.not_mem_nil r)⟩,
   c3_amended_termination_bound emptyWF
     ⟨fun e he => absurd he (List.not_mem_nil e),
      fun r hr => absurd hr (List.not_mem_nil r)⟩⟩

/-- **C6**: `EnhancedResearchWorkflow.run` never propagates a workflow
exception: when the graph invocation raises, `run` returns a best-effort
state with `workflow_completed = false`, an error-log entry recording the
failure, and the fallback executive summary. -/
theorem c6_run_error_recovery (query : String) (t0 : ℚ)
    (invoke : WFState → Except String WFState) (execution_time : ℚ)
    (cache : CacheManager.CacheState) (e : String)
    (hfail : invoke (initial_state query t0) = Except.error e) :
    (run query t0 invoke execution_time cache).workflow_completed = false ∧
    ("Workflow failure: " ++ e) ∈ (run query t0 invoke execution_time cache).errors ∧
    (run query t0 invoke execution_time cache).executive_summary =
      some ("# Error Report\n\nWorkflow failed to complete due to: " ++ e ++
        "\n\nPlease try again or contact support.") := by
  simp only [run]
  rw [hfail]
  exact ⟨rfl, List.mem_singleton_self _, rfl⟩

/-- Witness for C6: a graph invocation that always raises. -/
theorem c6_run_error_recovery_witness :
    ((fun _ : WFState => (Except.error "boom" : Except String WFState))
        (initial_state "q" 0) = Except.error "boom") ∧
    ((run "q" 0 (fun _ => Except.error "boom") 0 (CacheManager.init 100)).workflow_completed
        = false ∧
      ("Workflow failure: " ++ "boom") ∈
        (run "q" 0 (fun _ => Except.error "boom") 0 (CacheManager.init 100)).errors ∧
      (run "q" 0 (fun _ => Except.error "boom") 0 (CacheManager.init 100)).executive_summary =
        some ("# Error Report\n\nWorkflow failed to complete due to: " ++ "boom" ++
          "\n\nPlease try again or contact support.")) :=
  ⟨rfl, c6_run_error_recovery "q" 0 (fun _ => Except.error "boom") 0
    (CacheManager.init 100) "boom" rfl⟩

end ResearchCollab
